import Mathlib

/-!
Verification development for the CDN_EDGEProxy repository.

The definitions below are a shallow embedding of

  * the URL normalizer (`src/src/URLNormalizer.js`),
  * the v4.1.1 storage engine (`src/unnamed/part_002`, second class in the file:
    the one with `peekMetaAllowStale`, `putDocument`, `_debounceSave`),
  * the v4.1.1 request handler (`src/src/RequestHandler.js`, second class in
    the file: the one with `_handleDocument` and `_replayHeaders`).

Modelling conventions:

  * JavaScript string primitives (lowercasing, lexicographic comparison via
    code units, suffix test, `trim`, substring search) are re-implemented
    structurally over `String.data` so that every definition reduces inside
    the kernel.  Header names and values are assumed to be in their decoded
    form; `URLSearchParams` percent-encoding is not modelled, which does not
    affect any equality stated here because serialization stays a function of
    the parameter sequence.
  * `URLSearchParams.sort()` and `Array.prototype.sort` (stable since ES2019)
    are stable sorts; they are modelled by `List.insertionSort`, which is a
    stable sort for the same comparison.
  * `Map` objects become association lists: `set` replaces in place or
    appends, `delete` removes the unique entry, iteration is list order.
  * External cryptography (`sha256`, `md5`) is passed in as a function
    parameter; theorems that need collision-freedom state it as a hypothesis.
  * Wall-clock time (`Date.now()`) is an explicit `now : Nat` argument
    (milliseconds).
  * File-system effects are part of the state: `diskBlobs` is the map of blob
    files on disk, and a `diskOk : Bool` input tells whether a
    `fs.writeFileSync` of a new blob succeeds (`false` = the write throws).
-/

/-! ## String primitives (JavaScript semantics, kernel-computable) -/

/-- Lowercasing, as `String.prototype.toLowerCase` on the characters. -/
def strLower (s : String) : String := ⟨s.data.map Char.toLower⟩

/-- Lexicographic comparison of character lists by code point, the order
`URLSearchParams.sort()` uses on code units (identical on the ASCII keys
appearing in query strings). -/
def lexLE : List Char → List Char → Bool
  | [], _ => true
  | _ :: _, [] => false
  | a :: as, b :: bs =>
    if a.toNat < b.toNat then true
    else if b.toNat < a.toNat then false
    else lexLE as bs

/-- `a <= b` on strings, via `lexLE`. -/
def strLE (a b : String) : Bool := lexLE a.data b.data

/-- `String.prototype.endsWith`. -/
def strEndsWith (s sfx : String) : Bool := sfx.data.isSuffixOf s.data

/-- The white-space characters removed by `String.prototype.trim`
(ASCII subset; header values are ASCII). -/
def isJsWS (c : Char) : Bool :=
  c.toNat == 32 || c.toNat == 9 || c.toNat == 10 ||
  c.toNat == 13 || c.toNat == 11 || c.toNat == 12

/-- `String.prototype.trim`. -/
def strTrim (s : String) : String :=
  ⟨((s.data.dropWhile isJsWS).reverse.dropWhile isJsWS).reverse⟩

/-- Whether `pat` occurs contiguously inside `l`. -/
def listHasRun (pat : List Char) : List Char → Bool
  | [] => pat.isEmpty
  | c :: rest => pat.isPrefixOf (c :: rest) || listHasRun pat rest

/-- `String.prototype.includes`. -/
def strHasSub (s pat : String) : Bool := listHasRun pat.data s.data

/-- The regular expression `^\d{10,}$`. -/
def digitsTenPlus (v : String) : Bool :=
  decide (10 ≤ v.data.length) && v.data.all Char.isDigit

/-! ## URL normalizer (`src/src/URLNormalizer.js`) -/

/-- A query parameter: (name, value). -/
abbrev Param := String × String

/-- A header object: association list from lowercased header name to value. -/
abbrev HMap := List (String × String)

/-- The result of `new URL(url)` for an absolute URL: hostname, pathname and
the decoded query parameter sequence (`URLSearchParams`, duplicates kept in
order). -/
structure ParsedURL where
  hostname : String
  pathname : String
  params : List Param
deriving DecidableEq

/-- `this.trackingParams` of the normalizer. -/
def trackingParams : List String :=
  ["utm_source", "utm_medium", "utm_campaign", "utm_term", "utm_content",
   "fbclid", "gclid", "gclsrc", "yclid", "msclkid", "dclid",
   "spm", "scm", "_ga", "_gl", "mc_cid", "mc_eid",
   "ncid", "ref", "ref_", "referer", "source",
   "ns_source", "ns_mchannel", "ns_campaign",
   "twclid", "igshid", "ttclid",
   "mibextid", "hss_channel",
   "_branch_match_id", "_branch_referrer",
   "zanpid", "irclickid", "irgwc"]

/-- `this.adCdnStripParams` of the normalizer. -/
def adCdnStripParams : List String :=
  ["cb", "cachebuster", "cache_buster", "ord", "correlator",
   "gdpr_consent", "gdpr", "us_privacy", "gpp", "gpp_sid",
   "usprivacy", "addtl_consent", "consent",
   "dt", "timestamp", "ts", "t", "rnd", "rand", "random",
   "bust", "buster", "nc"]

/-- `this.pathOnlyDomains` of the normalizer. -/
def pathOnlyDomains : List String :=
  ["tpc.googlesyndication.com", "pagead2.googlesyndication.com",
   "fonts.gstatic.com", "fonts.googleapis.com"]

/-- `URLSearchParams.get(key)`: first value stored under `key`, if any. -/
def firstVal (params : List Param) (k : String) : Option String :=
  (params.find? (fun p => p.1 == k)).map (·.2)

/-- Whether the deletion loop of `canonicalKey` pushes `key` onto `toDelete`.
The loop iterates over the pairs but destructures only the name and queries
`params.get(key)`, so marking is a function of the name alone (the ≥10-digit
test for ad origins always looks at the *first* value of that name). -/
def markKey (origin : String) (params : List Param) (key : String) : Bool :=
  let kl := strLower key
  if trackingParams.contains kl then true
  else if origin == "ad" && adCdnStripParams.contains kl then true
  else if origin == "ad" then
    match firstVal params key with
    | some val => val != "" && digitsTenPlus val
    | none => false
  else false

/-- The parameters surviving `for (const k of toDelete) params.delete(k)`:
`URLSearchParams.delete` removes every pair with a marked name. -/
def survivors (origin : String) (params : List Param) : List Param :=
  params.filter (fun p => !(markKey origin params p.1))

/-- The ordering `URLSearchParams.sort()` sorts by: names only. -/
def keyLE (a b : Param) : Prop := strLE a.1 b.1 = true

instance : DecidableRel keyLE := fun a b => by
  unfold keyLE; infer_instance

/-- `URLSearchParams.sort()`: a stable sort by name. -/
def sortParams (l : List Param) : List Param := List.insertionSort keyLE l

/-- `URLSearchParams.toString()` (percent-encoding not modelled). -/
def serializeQS (l : List Param) : String :=
  String.intercalate "&" (l.map (fun p => p.1 ++ "=" ++ p.2))

/-- `URLNormalizer.canonicalKey(url, origin)` on a successfully parsed URL
(on a parse failure the source returns the raw URL, which no claim here
touches). -/
def canonicalKey (u : ParsedURL) (origin : String) : String :=
  let hostname := strLower u.hostname
  if pathOnlyDomains.any (fun d => hostname == d || strEndsWith hostname ("." ++ d)) then
    hostname ++ u.pathname
  else
    let qs := serializeQS (sortParams (survivors origin u.params))
    if qs == "" then hostname ++ u.pathname
    else hostname ++ u.pathname ++ "?" ++ qs

/-- `URLNormalizer.varyKey(canonicalKey, requestHeaders, responseVary)`;
`md5hex` is the external MD5 hex digest. -/
def varyKey (md5hex : String → String) (canonical : String)
    (requestHeaders : HMap) (responseVary : Option String) : String :=
  match responseVary with
  | none => canonical
  | some rv =>
    if rv == "" then canonical
    else if strHasSub (strLower rv) "accept" then
      let accept := strTrim ((requestHeaders.lookup "accept").getD "")
      if accept == "" then canonical
      else canonical ++ "|accept=" ++ (md5hex accept).take 8
    else canonical

/-! ## Storage engine (`src/unnamed/part_002`, v4.1.1 class) -/

/-- A cache entry as written by `put` / `putDocument`. -/
structure MetaEntry where
  url : String
  blobHash : String
  storedAt : Nat
  headers : HMap
  etag : Option String
  lastModified : Option String
  vary : Option String
  resourceType : String
  origin : String
  size : Nat
deriving DecidableEq

/-- The engine state: configuration, the two indices, the hot blob tier, the
dedup marker set, the dirty flag, and the blob files on disk. -/
structure Store where
  maxSize : Nat
  maxAge : Nat
  index : List (String × MetaEntry)
  aliasIndex : List (String × String)
  blobs : List (String × List Nat)
  dedup : List String
  dirty : Bool
  diskBlobs : List (String × List Nat)
deriving DecidableEq

/-- `Math.max(this.maxAge * 30, 7 * 24 * 60 * 60 * 1000)`. -/
def staleTTL (maxAge : Nat) : Nat := max (30 * maxAge) 604800000

/-- JavaScript truthiness on an optional string: `h || null`. -/
def truthyOpt (o : Option String) : Option String :=
  match o with
  | some v => if v == "" then none else some v
  | none => none

/-- `Map.prototype.set`: replace in place, or append a new entry. -/
def updOne {α : Type} (k : String) (v : α) : List (String × α) → List (String × α)
  | [] => [(k, v)]
  | (k', v') :: rest => if k' == k then (k, v) :: rest else (k', v') :: updOne k v rest

/-- `Map.prototype.delete`: remove the entry stored under `k`. -/
def eraseKey {α : Type} (k : String) : List (String × α) → List (String × α)
  | [] => []
  | (k', v') :: rest => if k' == k then rest else (k', v') :: eraseKey k rest

/-- `for (const [, meta] of this.index) totalSize += meta.size`. -/
def sumSizes (idx : List (String × MetaEntry)) : Nat :=
  (idx.map (fun p => p.2.size)).sum

/-- `_pickCacheHeaders(headers)`: the asset whitelist (an entry is copied only
when its value is truthy). -/
def pickCacheHeaders (headers : HMap) : HMap :=
  ["content-type", "cache-control", "etag", "last-modified", "vary",
   "access-control-allow-origin", "access-control-allow-credentials",
   "access-control-allow-methods", "access-control-allow-headers",
   "access-control-expose-headers", "timing-allow-origin",
   "x-content-type-options"].filterMap
    (fun k => (truthyOpt (headers.lookup k)).map (fun v => (k, v)))

/-- `_pickDocHeaders(headers)`: the document whitelist. -/
def pickDocHeaders (headers : HMap) : HMap :=
  ["content-type", "cache-control", "etag", "last-modified", "vary",
   "access-control-allow-origin", "access-control-allow-credentials",
   "access-control-allow-methods", "access-control-allow-headers",
   "access-control-expose-headers", "x-content-type-options",
   "content-security-policy", "x-frame-options",
   "set-cookie", "link"].filterMap
    (fun k => (truthyOpt (headers.lookup k)).map (fun v => (k, v)))

/-- `peekMeta(cacheKey)`. -/
def peekMeta (s : Store) (cacheKey : String) : Option MetaEntry :=
  s.index.lookup cacheKey

/-- `peekMetaAllowStale(cacheKey)`: the entry iff it is younger than the
stale TTL. -/
def peekMetaAllowStale (s : Store) (now : Nat) (cacheKey : String) : Option MetaEntry :=
  match s.index.lookup cacheKey with
  | none => none
  | some m => if now - m.storedAt < staleTTL s.maxAge then some m else none

/-- `peekAlias(aliasKey)`. -/
def peekAlias (s : Store) (now : Nat) (aliasKey : String) : Option MetaEntry :=
  match s.aliasIndex.lookup aliasKey with
  | none => none
  | some canonKey => peekMetaAllowStale s now canonKey

/-- `isFresh(meta)`. -/
def isFresh (s : Store) (now : Nat) (m : MetaEntry) : Bool :=
  decide (now - m.storedAt < s.maxAge)

/-- `hasValidators(meta)`: `meta.etag || meta.lastModified` (truthy). -/
def hasValidators (m : MetaEntry) : Bool :=
  m.etag.isSome || m.lastModified.isSome

/-- `getBlob(blobHash)`: hot tier first, else load the disk file into the hot
tier; returns the bytes (if any) and the possibly updated state. -/
def getBlob (s : Store) (blobHash : String) : Option (List Nat) × Store :=
  match s.blobs.lookup blobHash with
  | some b => (some b, s)
  | none =>
    match s.diskBlobs.lookup blobHash with
    | some b => (some b, { s with blobs := (blobHash, b) :: s.blobs })
    | none => (none, s)

/-- `refreshTTL(cacheKey)`. -/
def refreshTTL (s : Store) (now : Nat) (cacheKey : String) : Store :=
  match s.index.lookup cacheKey with
  | none => s
  | some m => { s with index := updOne cacheKey { m with storedAt := now } s.index,
                       dirty := true }

/-- The eviction ordering: ascending `storedAt` (ties keep map order; the JS
sort is stable). -/
def storedAtLE (a b : String × MetaEntry) : Prop := a.2.storedAt ≤ b.2.storedAt

instance : DecidableRel storedAtLE := fun a b => by
  unfold storedAtLE; infer_instance

/-- One iteration of the `_evictIfNeeded` loop body: delete the entry from
the index; if no remaining entry references its blob hash, drop the blob from
the hot tier and unlink its file. -/
def evictStep (k : String) (m : MetaEntry) (s : Store) : Store :=
  let idx := eraseKey k s.index
  let stillUsed := idx.any (fun p => p.2.blobHash == m.blobHash)
  { s with index := idx,
           blobs := if stillUsed then s.blobs else eraseKey m.blobHash s.blobs,
           diskBlobs := if stillUsed then s.diskBlobs else eraseKey m.blobHash s.diskBlobs }

/-- The `while` loop of `_evictIfNeeded`: pop the oldest entries while the
running total exceeds `0.9 × maxSize` (the float comparison
`totalSize > maxSize * 0.9` is modelled exactly as `10·total > 9·maxSize`). -/
def evictLoop (maxSize : Nat) : List (String × MetaEntry) → Nat → Store → Store
  | [], _, s => s
  | (k, m) :: rest, total, s =>
    if 10 * total > 9 * maxSize then
      evictLoop maxSize rest (total - m.size) (evictStep k m s)
    else s

/-- `_evictIfNeeded()`. -/
def evictIfNeeded (s : Store) : Store :=
  let total := sumSizes s.index
  if total ≤ s.maxSize then s
  else evictLoop s.maxSize (List.insertionSort storedAtLE s.index) total s

/-- `put(cacheKey, url, body, headers, resourceType, origin, aliasKey, _)`.
`hashF` is the external SHA-256 hex digest; `diskOk = false` means the
`fs.writeFileSync` of a new blob throws, which the source does not catch, so
the call fails before any state is mutated. -/
def put (s : Store) (now : Nat) (hashF : List Nat → String) (diskOk : Bool)
    (cacheKey url : String) (body : List Nat) (headers : HMap)
    (resourceType origin : String) (aliasKey : Option String) : Except Unit Store :=
  let h := hashF body
  let isNewBlob := (s.blobs.lookup h).isNone
  if isNewBlob && !diskOk then .error () else
  let s1 :=
    if isNewBlob then
      { s with blobs := (h, body) :: s.blobs, diskBlobs := updOne h body s.diskBlobs }
    else
      { s with dedup := cacheKey :: s.dedup }
  let m : MetaEntry :=
    { url := url, blobHash := h, storedAt := now,
      headers := pickCacheHeaders headers,
      etag := truthyOpt (headers.lookup "etag"),
      lastModified := truthyOpt (headers.lookup "last-modified"),
      vary := truthyOpt (headers.lookup "vary"),
      resourceType := resourceType, origin := origin, size := body.length }
  let s2 := { s1 with index := updOne cacheKey m s1.index }
  let s3 :=
    match aliasKey with
    | some a => { s2 with aliasIndex := updOne a cacheKey s2.aliasIndex }
    | none => s2
  .ok (evictIfNeeded { s3 with dirty := true })

/-- `putDocument(cacheKey, url, body, headers)`: like `put` but with the
document header whitelist, hard-coded resource type and origin, no dedup
marker, no alias registration and no eviction check. -/
def putDocument (s : Store) (now : Nat) (hashF : List Nat → String) (diskOk : Bool)
    (cacheKey url : String) (body : List Nat) (headers : HMap) : Except Unit Store :=
  let h := hashF body
  let isNewBlob := (s.blobs.lookup h).isNone
  if isNewBlob && !diskOk then .error () else
  let s1 :=
    if isNewBlob then
      { s with blobs := (h, body) :: s.blobs, diskBlobs := updOne h body s.diskBlobs }
    else s
  let m : MetaEntry :=
    { url := url, blobHash := h, storedAt := now,
      headers := pickDocHeaders headers,
      etag := truthyOpt (headers.lookup "etag"),
      lastModified := truthyOpt (headers.lookup "last-modified"),
      vary := truthyOpt (headers.lookup "vary"),
      resourceType := "document", origin := "document", size := body.length }
  .ok { s1 with index := updOne cacheKey m s1.index, dirty := true }

/-! ## Request handler (`src/src/RequestHandler.js`, v4.1.1 class)

The handler is embedded as a pure function over: the collaborating
normalizer / classifier / hash functions (an `Env`), the storage state, the
intercepted request, the sequence of outcomes of the `route.fetch` calls it
performs (`.error ()` = the fetch rejected), and the `diskOk` flag for the
blob write of a `put` it may perform.  The result carries the terminal
outcome, the final storage state, and the observable events in order. -/

/-- The intercepted request. -/
structure Request where
  method : String
  url : String
  resourceType : String
  headers : HMap
deriving DecidableEq

/-- A `route.fetch` response (body already decompressed). -/
structure Resp where
  status : Nat
  headers : HMap
  body : List Nat
deriving DecidableEq

/-- `response.ok()`. -/
def Resp.isOk (r : Resp) : Bool := decide (200 ≤ r.status) && decide (r.status < 300)

/-- A classifier verdict. -/
structure Classification where
  cls : String
  origin : String
deriving DecidableEq

/-- The handler's collaborators and the current time. -/
structure Env where
  classify : String → String → Classification
  shouldCacheByContentType : Option String → Bool
  canon : String → String → String
  aliasF : String → Option String
  normDoc : String → String
  sha256hex : String → String
  hashBody : List Nat → String
  now : Nat

/-- Outcome of one `route.fetch`. -/
abbrev FetchResult := Except Unit Resp

/-- Which source line the terminal `fulfill` came from. -/
inductive PathTag
  | freshHit | hit304 | staleHit | staleRescue
  | missNoCache | missUpdate | missCached | missPlain
  | docHit | docStale | docUpdate | docPass | docFirst
deriving DecidableEq

/-- Observable events of one handler run, in order. -/
inductive Event
  | lookup (key : String)
  | aliasLookup (key : String)
  | docLookup (key : String)
  | fetchCall
  | putCall (key : String) (body : List Nat)
  | putDocCall (key : String) (body : List Nat)
  | statHit | statReval | statMiss | statDocHit | statDocMiss
deriving DecidableEq

/-- The terminal action: `route.continue()`, `route.fulfill(...)`, or a
propagated error. -/
inductive Outcome
  | cont
  | fulfill (status : Nat) (headers : HMap) (body : List Nat) (tag : PathTag)
  | error
deriving DecidableEq

/-- Result of a handler run. -/
structure HResult where
  outcome : Outcome
  store : Store
  events : List Event
deriving DecidableEq

/-- `_stripEncoding(headers)`. -/
def stripEncoding (headers : HMap) : HMap :=
  headers.filter (fun p =>
    !(p.1 == "content-encoding" || p.1 == "content-length" || p.1 == "transfer-encoding"))

/-- `_replayHeaders(stored)`. -/
def replayHeaders (stored : HMap) : HMap :=
  updOne "x-edgeproxy-engine" "CDN_EdgeProxy/4.1.1"
    (updOne "x-edgeproxy" "HIT" (stripEncoding stored))

/-- `_replayDocHeaders(stored)`. -/
def replayDocHeaders (stored : HMap) : HMap :=
  updOne "x-edgeproxy-engine" "CDN_EdgeProxy/4.1.1"
    (updOne "x-edgeproxy" "DOC-HIT" (stripEncoding stored))

/-- `_isCacheableType(resourceType)`. -/
def isCacheableType (rt : String) : Bool :=
  rt == "stylesheet" || rt == "script" || rt == "image" ||
  rt == "font" || rt == "media" || rt == "fetch" || rt == "xhr"

/-- Per-request context computed at the top of the class-C path. -/
structure AssetCtx where
  url : String
  resourceType : String
  reqHeaders : HMap
  origin : String
  cacheKey : String
  aliasKey : Option String
  isFetchXhr : Bool

/-- Consume the next `route.fetch` outcome. -/
def nextFetch : List FetchResult → FetchResult × List FetchResult
  | [] => (.error (), [])
  | f :: rest => (f, rest)

/-- The cold-miss section (`// ─── MISS: fetch from origin ───`).
`metaRescue` is the value of the `meta` variable at this point (it was reset
to `null` when a fresh hit found no blob); the enclosing `try/catch` turns a
fetch rejection or a `put` failure into a stale rescue when that meta's blob
loads, else the error propagates. -/
def missBranch (env : Env) (s : Store) (c : AssetCtx) (metaRescue : Option MetaEntry)
    (fetches : List FetchResult) (diskOk : Bool) : HResult :=
  let (f, _) := nextFetch fetches
  match f with
  | .error _ =>
    match metaRescue with
    | some m =>
      match getBlob s m.blobHash with
      | (some b, s1) => ⟨.fulfill 200 (replayHeaders m.headers) b .staleRescue, s1, [.fetchCall]⟩
      | (none, s1) => ⟨.error, s1, [.fetchCall]⟩
    | none => ⟨.error, s, [.fetchCall]⟩
  | .ok resp =>
    let body := resp.body
    let respHeaders := resp.headers
    if c.isFetchXhr && !(env.shouldCacheByContentType (respHeaders.lookup "content-type")) then
      ⟨.fulfill resp.status (stripEncoding respHeaders) body .missNoCache, s,
       [.fetchCall, .statMiss]⟩
    else if resp.isOk && decide (0 < body.length) then
      match put s env.now env.hashBody diskOk c.cacheKey c.url body respHeaders
          c.resourceType c.origin c.aliasKey with
      | .ok s1 =>
        ⟨.fulfill resp.status (stripEncoding respHeaders) body .missCached, s1,
         [.fetchCall, .putCall c.cacheKey body, .statMiss]⟩
      | .error _ =>
        match metaRescue with
        | some m =>
          match getBlob s m.blobHash with
          | (some b, s1) =>
            ⟨.fulfill 200 (replayHeaders m.headers) b .staleRescue, s1,
             [.fetchCall, .putCall c.cacheKey body]⟩
          | (none, s1) => ⟨.error, s1, [.fetchCall, .putCall c.cacheKey body]⟩
        | none => ⟨.error, s, [.fetchCall, .putCall c.cacheKey body]⟩
    else
      ⟨.fulfill resp.status (stripEncoding respHeaders) body .missPlain, s,
       [.fetchCall, .statMiss]⟩

/-- The `// 200 — content changed` section of the revalidation `try` block,
entered with the already-received response (also on a 304 whose blob is
missing).  A `put` failure is caught by the revalidation `catch`: stale hit
when the blob loads, else fall through to the cold-miss section. -/
def changedContent (env : Env) (s : Store) (c : AssetCtx) (m : MetaEntry) (resp : Resp)
    (rest : List FetchResult) (diskOk : Bool) : HResult :=
  let newBody := resp.body
  let respHeaders := resp.headers
  if c.isFetchXhr && !(env.shouldCacheByContentType (respHeaders.lookup "content-type")) then
    ⟨.fulfill resp.status (stripEncoding respHeaders) newBody .missNoCache, s, [.statMiss]⟩
  else
    match put s env.now env.hashBody diskOk c.cacheKey c.url newBody respHeaders
        c.resourceType c.origin c.aliasKey with
    | .ok s1 =>
      ⟨.fulfill resp.status (stripEncoding respHeaders) newBody .missUpdate, s1,
       [.putCall c.cacheKey newBody, .statMiss]⟩
    | .error _ =>
      match getBlob s m.blobHash with
      | (some b, s1) =>
        ⟨.fulfill 200 (replayHeaders m.headers) b .staleHit, s1,
         [.putCall c.cacheKey newBody, .statHit]⟩
      | (none, s1) =>
        let res := missBranch env s1 c (some m) rest diskOk
        { res with events := .putCall c.cacheKey newBody :: res.events }

/-- The `// ─── STALE: conditional revalidation ───` section. -/
def revalBranch (env : Env) (s : Store) (c : AssetCtx) (m : MetaEntry) (usedAlias : Bool)
    (fetches : List FetchResult) (diskOk : Bool) : HResult :=
  let (f, rest) := nextFetch fetches
  match f with
  | .error _ =>
    match getBlob s m.blobHash with
    | (some b, s1) =>
      ⟨.fulfill 200 (replayHeaders m.headers) b .staleHit, s1, [.fetchCall, .statHit]⟩
    | (none, s1) =>
      let res := missBranch env s1 c (some m) rest diskOk
      { res with events := .fetchCall :: res.events }
  | .ok resp =>
    if resp.status == 304 then
      match getBlob s m.blobHash with
      | (some b, s1) =>
        let s2 := refreshTTL s1 env.now c.cacheKey
        if usedAlias then
          match put s2 env.now env.hashBody diskOk c.cacheKey c.url b m.headers
              c.resourceType c.origin c.aliasKey with
          | .ok s3 =>
            ⟨.fulfill 200 (replayHeaders m.headers) b .hit304, s3,
             [.fetchCall, .putCall c.cacheKey b, .statReval]⟩
          | .error _ =>
            match getBlob s2 m.blobHash with
            | (some b2, s3) =>
              ⟨.fulfill 200 (replayHeaders m.headers) b2 .staleHit, s3,
               [.fetchCall, .putCall c.cacheKey b, .statHit]⟩
            | (none, s3) =>
              let res := missBranch env s3 c (some m) rest diskOk
              { res with events := .fetchCall :: .putCall c.cacheKey b :: res.events }
        else
          ⟨.fulfill 200 (replayHeaders m.headers) b .hit304, s2, [.fetchCall, .statReval]⟩
      | (none, s1) =>
        let res := changedContent env s1 c m resp rest diskOk
        { res with events := .fetchCall :: res.events }
    else
      let res := changedContent env s c m resp rest diskOk
      { res with events := .fetchCall :: res.events }

/-- The class-C path once a lookup produced an entry: fresh hit (resetting
`meta` to `null` if the blob is missing), else conditional revalidation when
validators exist, else cold miss keeping the entry for a possible rescue. -/
def assetWithMeta (env : Env) (s : Store) (c : AssetCtx) (m : MetaEntry) (usedAlias : Bool)
    (fetches : List FetchResult) (diskOk : Bool) : HResult :=
  if isFresh s env.now m then
    match getBlob s m.blobHash with
    | (some b, s1) => ⟨.fulfill 200 (replayHeaders m.headers) b .freshHit, s1, [.statHit]⟩
    | (none, s1) => missBranch env s1 c none fetches diskOk
  else if hasValidators m then
    revalBranch env s c m usedAlias fetches diskOk
  else
    missBranch env s c (some m) fetches diskOk

/-- The first-visit / no-validators document path. -/
def docFresh (env : Env) (s : Store) (r : Request) (docKey : String)
    (fetches : List FetchResult) (diskOk : Bool) : HResult :=
  let (f, _) := nextFetch fetches
  match f with
  | .error _ => ⟨.cont, s, [.fetchCall]⟩
  | .ok resp =>
    let body := resp.body
    let respHeaders := resp.headers
    if resp.isOk && decide (0 < body.length) &&
        ((truthyOpt (respHeaders.lookup "etag")).isSome ||
         (truthyOpt (respHeaders.lookup "last-modified")).isSome) then
      match putDocument s env.now env.hashBody diskOk docKey r.url body respHeaders with
      | .ok s1 =>
        ⟨.fulfill resp.status (stripEncoding respHeaders) body .docFirst, s1,
         [.fetchCall, .putDocCall docKey body, .statDocMiss]⟩
      | .error _ => ⟨.cont, s, [.fetchCall, .putDocCall docKey body]⟩
    else
      ⟨.fulfill resp.status (stripEncoding respHeaders) body .docFirst, s,
       [.fetchCall, .statDocMiss]⟩

/-- The always-revalidate document path (stored entry with validators). -/
def docReval (env : Env) (s : Store) (r : Request) (docKey : String) (m : MetaEntry)
    (fetches : List FetchResult) (diskOk : Bool) : HResult :=
  let (f, _) := nextFetch fetches
  match f with
  | .error _ =>
    match getBlob s m.blobHash with
    | (some b, s1) => ⟨.fulfill 200 (replayDocHeaders m.headers) b .docStale, s1, [.fetchCall]⟩
    | (none, s1) => ⟨.cont, s1, [.fetchCall]⟩
  | .ok resp =>
    if resp.status == 304 then
      match getBlob s m.blobHash with
      | (some b, s1) =>
        ⟨.fulfill 200 (replayDocHeaders m.headers) b .docHit, s1, [.fetchCall, .statDocHit]⟩
      | (none, s1) =>
        ⟨.fulfill resp.status (stripEncoding resp.headers) resp.body .docPass, s1, [.fetchCall]⟩
    else if resp.isOk then
      let body := resp.body
      let respHeaders := resp.headers
      if decide (0 < body.length) &&
          ((truthyOpt (respHeaders.lookup "etag")).isSome ||
           (truthyOpt (respHeaders.lookup "last-modified")).isSome) then
        match putDocument s env.now env.hashBody diskOk docKey r.url body respHeaders with
        | .ok s1 =>
          ⟨.fulfill resp.status (stripEncoding respHeaders) body .docUpdate, s1,
           [.fetchCall, .putDocCall docKey body, .statDocMiss]⟩
        | .error _ =>
          match getBlob s m.blobHash with
          | (some b, s1) =>
            ⟨.fulfill 200 (replayDocHeaders m.headers) b .docStale, s1,
             [.fetchCall, .putDocCall docKey body]⟩
          | (none, s1) => ⟨.cont, s1, [.fetchCall, .putDocCall docKey body]⟩
      else
        ⟨.fulfill resp.status (stripEncoding respHeaders) body .docUpdate, s,
         [.fetchCall, .statDocMiss]⟩
    else
      ⟨.fulfill resp.status (stripEncoding resp.headers) resp.body .docPass, s, [.fetchCall]⟩

/-- `_handleDocument(route)`. -/
def handleDocument (env : Env) (s : Store) (r : Request) (fetches : List FetchResult)
    (diskOk : Bool) : HResult :=
  let docKey := env.sha256hex ("doc:" ++ env.normDoc r.url)
  let res :=
    match peekMeta s docKey with
    | some m =>
      if hasValidators m then docReval env s r docKey m fetches diskOk
      else docFresh env s r docKey fetches diskOk
    | none => docFresh env s r docKey fetches diskOk
  { res with events := .docLookup docKey :: res.events }

/-- `handle(route)`: the whole state machine. -/
def handle (env : Env) (s : Store) (r : Request) (fetches : List FetchResult)
    (diskOk : Bool) : HResult :=
  if r.method != "GET" then ⟨.cont, s, []⟩
  else if r.resourceType == "document" then handleDocument env s r fetches diskOk
  else if !(isCacheableType r.resourceType) then ⟨.cont, s, []⟩
  else
    let classification := env.classify r.url r.resourceType
    if classification.cls != "C" then ⟨.cont, s, []⟩
    else
      let c : AssetCtx :=
        { url := r.url, resourceType := r.resourceType, reqHeaders := r.headers,
          origin := classification.origin,
          cacheKey := env.sha256hex (env.canon r.url classification.origin),
          aliasKey := env.aliasF r.url,
          isFetchXhr := r.resourceType == "fetch" || r.resourceType == "xhr" }
      match peekMetaAllowStale s env.now c.cacheKey with
      | some m =>
        let res := assetWithMeta env s c m false fetches diskOk
        { res with events := .lookup c.cacheKey :: res.events }
      | none =>
        match c.aliasKey with
        | some a =>
          match peekAlias s env.now a with
          | some m =>
            let res := assetWithMeta env s c m true fetches diskOk
            { res with events := .lookup c.cacheKey :: .aliasLookup a :: res.events }
          | none =>
            let res := missBranch env s c none fetches diskOk
            { res with events := .lookup c.cacheKey :: .aliasLookup a :: res.events }
        | none =>
          let res := missBranch env s c none fetches diskOk
          { res with events := .lookup c.cacheKey :: res.events }

/-! ## Order lemmas for the stable query sort -/

theorem charToNat_inj {a b : Char} (h : a.toNat = b.toNat) : a = b :=
  Char.ext (UInt32.ext h)

theorem lexLE_refl : ∀ l : List Char, lexLE l l = true
  | [] => rfl
  | a :: as => by simp [lexLE, lexLE_refl as]

theorem lexLE_total : ∀ a b : List Char, lexLE a b = true ∨ lexLE b a = true
  | [], _ => Or.inl rfl
  | _ :: _, [] => Or.inr rfl
  | a :: as, b :: bs => by
    by_cases h1 : a.toNat < b.toNat
    · left; simp [lexLE, h1]
    · by_cases h2 : b.toNat < a.toNat
      · right; simp [lexLE, h2]
      · have hab : a = b :=
          charToNat_inj (Nat.le_antisymm (Nat.le_of_not_lt h2) (Nat.le_of_not_lt h1))
        subst hab
        simpa [lexLE, h1] using lexLE_total as bs

theorem lexLE_trans : ∀ a b c : List Char,
    lexLE a b = true → lexLE b c = true → lexLE a c = true
  | [], _, _, _, _ => rfl
  | _ :: _, [], _, h, _ => by simp [lexLE] at h
  | _ :: _, _ :: _, [], _, h => by simp [lexLE] at h
  | a :: as, b :: bs, c :: cs, h1, h2 => by
    simp only [lexLE] at h1 h2 ⊢
    rcases Nat.lt_trichotomy a.toNat b.toNat with hab | hab | hab
    · rcases Nat.lt_trichotomy b.toNat c.toNat with hbc | hbc | hbc
      · rw [if_pos (by omega)]
      · rw [if_pos (by omega)]
      · rw [if_neg (by omega), if_pos (by omega)] at h2; simp at h2
    · rcases Nat.lt_trichotomy b.toNat c.toNat with hbc | hbc | hbc
      · rw [if_pos (by omega)]
      · rw [if_neg (by omega), if_neg (by omega)] at h1
        rw [if_neg (by omega), if_neg (by omega)] at h2
        rw [if_neg (by omega), if_neg (by omega)]
        exact lexLE_trans as bs cs h1 h2
      · rw [if_neg (by omega), if_pos (by omega)] at h2; simp at h2
    · rw [if_neg (by omega), if_pos (by omega)] at h1; simp at h1

theorem lexLE_antisymm : ∀ a b : List Char,
    lexLE a b = true → lexLE b a = true → a = b
  | [], [], _, _ => rfl
  | [], _ :: _, _, h => by simp [lexLE] at h
  | _ :: _, [], h, _ => by simp [lexLE] at h
  | a :: as, b :: bs, h1, h2 => by
    simp only [lexLE] at h1 h2
    rcases Nat.lt_trichotomy a.toNat b.toNat with hab | hab | hab
    · rw [if_neg (by omega), if_pos (by omega)] at h2; simp at h2
    · have hab' : a = b := charToNat_inj hab
      subst hab'
      rw [if_neg (by omega), if_neg (by omega)] at h1
      rw [if_neg (by omega), if_neg (by omega)] at h2
      rw [lexLE_antisymm as bs h1 h2]
    · rw [if_neg (by omega), if_pos (by omega)] at h1; simp at h1

theorem strLE_refl (s : String) : strLE s s = true := lexLE_refl s.data

theorem strLE_antisymm {a b : String} (h1 : strLE a b = true) (h2 : strLE b a = true) :
    a = b := by
  cases a; cases b
  exact congrArg String.mk (lexLE_antisymm _ _ h1 h2)

instance : IsTotal Param keyLE :=
  ⟨fun a b => lexLE_total a.1.data b.1.data⟩

instance : IsTrans Param keyLE :=
  ⟨fun _ _ _ h1 h2 => lexLE_trans _ _ _ h1 h2⟩

/-! ## Stability of the query sort -/

theorem filter_orderedInsert_of_eq (k : String) (x : Param) (hx : x.1 = k) :
    ∀ t : List Param, (List.orderedInsert keyLE x t).filter (fun y => y.1 == k) =
      x :: t.filter (fun y => y.1 == k)
  | [] => by simp [List.orderedInsert, hx]
  | y :: ys => by
    by_cases hr : keyLE x y
    · simp [List.orderedInsert, if_pos hr, List.filter_cons, hx]
    · have hy : (y.1 == k) = false := by
        apply beq_false_of_ne
        intro hyk
        exact hr (by rw [keyLE, hx, hyk]; exact strLE_refl k)
      simp only [List.orderedInsert, if_neg hr, List.filter_cons, hy]
      simp only [Bool.false_eq_true, if_false]
      exact filter_orderedInsert_of_eq k x hx ys

theorem filter_orderedInsert_of_ne (k : String) (x : Param) (hx : x.1 ≠ k) :
    ∀ t : List Param, (List.orderedInsert keyLE x t).filter (fun y => y.1 == k) =
      t.filter (fun y => y.1 == k)
  | [] => by simp [List.orderedInsert, hx]
  | y :: ys => by
    by_cases hr : keyLE x y
    · simp [List.orderedInsert, if_pos hr, List.filter_cons, hx]
    · simp only [List.orderedInsert, if_neg hr, List.filter_cons]
      rw [filter_orderedInsert_of_ne k x hx ys]

theorem filter_sortParams (k : String) : ∀ l : List Param,
    (sortParams l).filter (fun y => y.1 == k) = l.filter (fun y => y.1 == k)
  | [] => rfl
  | x :: xs => by
    show (List.orderedInsert keyLE x (List.insertionSort keyLE xs)).filter _ = _
    by_cases hx : x.1 = k
    · rw [filter_orderedInsert_of_eq k x hx,
        show (List.insertionSort keyLE xs).filter (fun y => y.1 == k) =
          xs.filter (fun y => y.1 == k) from filter_sortParams k xs,
        List.filter_cons, if_pos (by simp [hx])]
    · rw [filter_orderedInsert_of_ne k x hx,
        show (List.insertionSort keyLE xs).filter (fun y => y.1 == k) =
          xs.filter (fun y => y.1 == k) from filter_sortParams k xs,
        List.filter_cons, if_neg (by simp [hx])]

theorem sorted_eq_of_key_filters :
    ∀ l1 l2 : List Param, l1.Pairwise keyLE → l2.Pairwise keyLE →
      (∀ k, l1.filter (fun y => y.1 == k) = l2.filter (fun y => y.1 == k)) → l1 = l2
  | [], [], _, _, _ => rfl
  | [], b :: t2, _, _, hf => by
    have h := hf b.1
    simp [List.filter_cons] at h
  | a :: t1, [], _, _, hf => by
    have h := hf a.1
    simp [List.filter_cons] at h
  | a :: t1, b :: t2, h1, h2, hf => by
    have hne2 : (b :: t2).filter (fun y => y.1 == a.1) ≠ [] := by
      rw [← hf a.1]; simp [List.filter_cons]
    have hne1 : (a :: t1).filter (fun y => y.1 == b.1) ≠ [] := by
      rw [hf b.1]; simp [List.filter_cons]
    obtain ⟨y, hy, hpy⟩ : ∃ y ∈ b :: t2, (y.1 == a.1) = true := by
      by_contra hcon
      push_neg at hcon
      exact hne2 (List.filter_eq_nil_iff.mpr hcon)
    obtain ⟨z, hz, hpz⟩ : ∃ z ∈ a :: t1, (z.1 == b.1) = true := by
      by_contra hcon
      push_neg at hcon
      exact hne1 (List.filter_eq_nil_iff.mpr hcon)
    have hba : strLE b.1 a.1 = true := by
      rcases List.mem_cons.mp hy with hyb | hyt
      · subst hyb; rw [show y.1 = a.1 from by simpa using hpy]; exact strLE_refl _
      · have := (List.pairwise_cons.mp h2).1 y hyt
        rw [keyLE] at this
        rw [show y.1 = a.1 from by simpa using hpy] at this
        exact this
    have hab : strLE a.1 b.1 = true := by
      rcases List.mem_cons.mp hz with hza | hzt
      · subst hza; rw [show z.1 = b.1 from by simpa using hpz]; exact strLE_refl _
      · have := (List.pairwise_cons.mp h1).1 z hzt
        rw [keyLE] at this
        rw [show z.1 = b.1 from by simpa using hpz] at this
        exact this
    have hkey : a.1 = b.1 := strLE_antisymm hab hba
    have hhead := hf a.1
    rw [List.filter_cons, List.filter_cons, if_pos (by simp), if_pos (by simp [hkey])] at hhead
    injection hhead with hab2 htail
    have htails : ∀ k, t1.filter (fun y => y.1 == k) = t2.filter (fun y => y.1 == k) := by
      intro k
      by_cases hk : k = a.1
      · subst hk; exact htail
      · have hak : (a.1 == k) = false := by
          simp only [beq_eq_false_iff_ne]
          exact Ne.symm hk
        have hbk : (b.1 == k) = false := by
          simp only [beq_eq_false_iff_ne]
          exact fun h => Ne.symm hk (hkey.trans h)
        have h := hf k
        simp only [List.filter_cons, hak, hbk, Bool.false_eq_true, if_false] at h
        exact h
    have hrest := sorted_eq_of_key_filters t1 t2 (List.Pairwise.of_cons h1)
      (List.Pairwise.of_cons h2) htails
    rw [hab2, hrest]

/-! ## Invariance of `canonicalKey` under per-key-subsequence-preserving
reorderings -/

theorem find?_key_eq_head_filter (k : String) : ∀ l : List Param,
    l.find? (fun p => p.1 == k) = (l.filter (fun p => p.1 == k)).head?
  | [] => rfl
  | x :: xs => by
    by_cases hx : (x.1 == k) = true
    · simp [List.find?_cons, hx, List.filter_cons]
    · simp only [List.find?_cons, List.filter_cons, hx, Bool.false_eq_true, if_false]
      exact find?_key_eq_head_filter k xs

theorem firstVal_congr {p1 p2 : List Param}
    (hq : ∀ k, p1.filter (fun y => y.1 == k) = p2.filter (fun y => y.1 == k))
    (k : String) : firstVal p1 k = firstVal p2 k := by
  unfold firstVal
  rw [find?_key_eq_head_filter, find?_key_eq_head_filter, hq k]

theorem markKey_congr {p1 p2 : List Param} (origin : String)
    (hq : ∀ k, p1.filter (fun y => y.1 == k) = p2.filter (fun y => y.1 == k))
    (k : String) : markKey origin p1 k = markKey origin p2 k := by
  unfold markKey
  rw [firstVal_congr hq k]

theorem filter_key_bool (k : String) (c : String → Bool) : ∀ p : List Param,
    p.filter (fun y => (y.1 == k) && c y.1) =
      (if c k = true then p.filter (fun y => y.1 == k) else [])
  | [] => by simp
  | x :: xs => by
    by_cases hx : (x.1 == k) = true
    · have hxk : x.1 = k := by simpa using hx
      by_cases hck : c k = true
      · simp [List.filter_cons, hx, hxk, hck, filter_key_bool k c xs]
      · simp [List.filter_cons, hx, hxk, Bool.of_not_eq_true hck, filter_key_bool k c xs, hck]
    · simp [List.filter_cons, hx, filter_key_bool k c xs]

theorem survivors_filter_key (origin : String) (p : List Param) (k : String) :
    (survivors origin p).filter (fun y => y.1 == k) =
      (if markKey origin p k then [] else p.filter (fun y => y.1 == k)) := by
  unfold survivors
  rw [List.filter_filter]
  rw [filter_key_bool k (fun k0 => !(markKey origin p k0)) p]
  by_cases hm : markKey origin p k
  · simp [hm]
  · simp [hm]

/-- Claim C1 (amended): `canonicalKey` is invariant under reorderings of the
query string that preserve, for every parameter name, the subsequence of that
name's pairs.  (The sort of `URLSearchParams.sort()` is stable by name only,
so duplicate names keep their original value order; preservation of the
surviving multiset alone is not sufficient — see the counterexample.) -/
theorem canonicalKey_stable_invariance (u1 u2 : ParsedURL) (origin : String)
    (hh : u1.hostname = u2.hostname) (hp : u1.pathname = u2.pathname)
    (hq : ∀ k, u1.params.filter (fun y => y.1 == k) =
      u2.params.filter (fun y => y.1 == k)) :
    canonicalKey u1 origin = canonicalKey u2 origin := by
  unfold canonicalKey
  rw [hh, hp]
  have hsort : sortParams (survivors origin u1.params) =
      sortParams (survivors origin u2.params) := by
    apply sorted_eq_of_key_filters
    · exact List.sorted_insertionSort keyLE _
    · exact List.sorted_insertionSort keyLE _
    · intro k
      rw [show (sortParams (survivors origin u1.params)).filter (fun y => y.1 == k) = _
            from filter_sortParams k _,
          show (sortParams (survivors origin u2.params)).filter (fun y => y.1 == k) = _
            from filter_sortParams k _]
      rw [survivors_filter_key, survivors_filter_key, markKey_congr origin hq k, hq k]
  rw [hsort]

/-- Claim C1, counterexample to the claim as stated: the two orderings of
`?a=2&a=1` have the same multiset of surviving pairs (all pairs survive for a
third-party origin), yet their canonical strings differ, because the sort is
stable by name and does not reorder equal names by value. -/
theorem canonicalKey_multiset_counterexample :
    (survivors "third-party" [(("a" : String), "2"), ("a", "1")]).Perm
      (survivors "third-party" [(("a" : String), "1"), ("a", "2")]) ∧
    canonicalKey ⟨"h", "/p", [("a", "2"), ("a", "1")]⟩ "third-party" ≠
      canonicalKey ⟨"h", "/p", [("a", "1"), ("a", "2")]⟩ "third-party" := by
  constructor
  · decide
  · decide

/-- Claim C1, witness: a concrete reordering with distinct names, where the
invariance theorem applies. -/
theorem canonicalKey_stable_invariance_witness :
    canonicalKey ⟨"h", "/p", [("b", "2"), ("a", "1")]⟩ "third-party" =
      canonicalKey ⟨"h", "/p", [("a", "1"), ("b", "2")]⟩ "third-party" :=
  canonicalKey_stable_invariance _ _ _ rfl rfl (by
    intro k
    by_cases ha : (("a" : String) == k) = true <;>
      by_cases hb : (("b" : String) == k) = true
    · exfalso
      have h1 : ("a" : String) = k := by simpa using ha
      have h2 : ("b" : String) = k := by simpa using hb
      exact absurd (h1.trans h2.symm) (by decide)
    · simp [List.filter_cons, ha, hb]
    · simp [List.filter_cons, ha, hb]
    · simp [List.filter_cons, ha, hb])

/-! ## Association list lemmas -/

theorem lookup_updOne_self {α : Type} (k : String) (v : α) :
    ∀ l : List (String × α), (updOne k v l).lookup k = some v
  | [] => by simp [updOne]
  | (k', v') :: rest => by
    by_cases h : (k' == k) = true
    · simp [updOne, h]
    · have h2 : (k == k') = false := by
        simp only [beq_eq_false_iff_ne]
        intro hh
        simp [hh] at h
      simp only [updOne, h, Bool.false_eq_true, if_false, List.lookup_cons, h2]
      exact lookup_updOne_self k v rest

theorem lookup_updOne_ne {α : Type} (k k' : String) (v : α) (hne : k' ≠ k) :
    ∀ l : List (String × α), (updOne k v l).lookup k' = l.lookup k'
  | [] => by
    simp [updOne, List.lookup_cons, beq_eq_false_iff_ne.mpr hne]
  | (k'', v'') :: rest => by
    by_cases h : (k'' == k) = true
    · have hk : k'' = k := by simpa using h
      simp [updOne, h, List.lookup_cons, hk, beq_eq_false_iff_ne.mpr hne]
    · simp only [updOne, h, Bool.false_eq_true, if_false, List.lookup_cons]
      cases hh : k' == k'' with
      | true => rfl
      | false => exact lookup_updOne_ne k k' v hne rest

theorem mem_eraseKey {α : Type} (k : String) (p : String × α) :
    ∀ l, p ∈ eraseKey k l → p ∈ l
  | [] => fun h => h
  | (k', v') :: rest => by
    by_cases hk : (k' == k) = true
    · simp only [eraseKey, hk, if_true]
      exact fun h => List.mem_cons_of_mem _ h
    · simp only [eraseKey, hk, Bool.false_eq_true, if_false, List.mem_cons]
      rintro (h | h)
      · exact Or.inl h
      · exact Or.inr (mem_eraseKey k p rest h)

theorem lookup_eraseKey_ne {α : Type} (k h : String) (hne : h ≠ k) :
    ∀ l : List (String × α), (eraseKey k l).lookup h = l.lookup h
  | [] => rfl
  | (k', v') :: rest => by
    by_cases hk : (k' == k) = true
    · have hk' : k' = k := by simpa using hk
      have hh : (h == k') = false := by
        simp only [beq_eq_false_iff_ne]
        rw [hk']; exact hne
      simp [eraseKey, hk, List.lookup_cons, hh]
    · simp only [eraseKey, hk, Bool.false_eq_true, if_false, List.lookup_cons]
      cases hh : h == k' with
      | true => rfl
      | false => exact lookup_eraseKey_ne k h hne rest

theorem lookup_eq_of_mem_nodup {α : Type} (k : String) (m : α) :
    ∀ l : List (String × α), (l.map Prod.fst).Nodup → (k, m) ∈ l → l.lookup k = some m
  | [] => by simp
  | (k', v') :: rest => by
    intro hnd hmem
    rcases List.mem_cons.mp hmem with h | h
    · injection h with h1 h2
      subst h1; subst h2
      simp [List.lookup_cons]
    · have hnd' : (k' :: rest.map Prod.fst).Nodup := by simpa using hnd
      have hk : (k == k') = false := by
        simp only [beq_eq_false_iff_ne]
        intro hkk
        have hmm : k ∈ rest.map Prod.fst := List.mem_map_of_mem Prod.fst h
        rw [hkk] at hmm
        exact (List.nodup_cons.mp hnd').1 hmm
      simp only [List.lookup_cons, hk]
      exact lookup_eq_of_mem_nodup k m rest
        (by simpa using (List.nodup_cons.mp hnd').2) h

theorem eraseKey_split {α : Type} (k : String) (m : α) :
    ∀ l : List (String × α), l.lookup k = some m →
      ∃ l1 l2, l = l1 ++ (k, m) :: l2 ∧ eraseKey k l = l1 ++ l2
  | [] => by simp [List.lookup]
  | (k', v') :: rest => by
    intro hl
    by_cases hk : (k' == k) = true
    · have hk' : k' = k := by simpa using hk
      subst hk'
      simp only [List.lookup_cons, beq_self_eq_true] at hl
      have hv : v' = m := by simpa using hl
      subst hv
      exact ⟨[], rest, rfl, by simp [eraseKey]⟩
    · have hk2 : (k == k') = false := by
        simp only [beq_eq_false_iff_ne]
        intro hh
        simp [hh] at hk
      simp only [List.lookup_cons, hk2] at hl
      obtain ⟨l1, l2, he, hr⟩ := eraseKey_split k m rest hl
      refine ⟨(k', v') :: l1, l2, by rw [List.cons_append, ← he], ?_⟩
      simp only [eraseKey, hk, Bool.false_eq_true, if_false, List.cons_append, hr]

theorem eraseKey_perm {α : Type} (k : String) (m : α) {l rest : List (String × α)}
    (hp : l.Perm ((k, m) :: rest)) (hnd : (l.map Prod.fst).Nodup) :
    (eraseKey k l).Perm rest := by
  have hmem : (k, m) ∈ l := hp.symm.subset (List.mem_cons_self _ _)
  have hl : l.lookup k = some m := lookup_eq_of_mem_nodup k m l hnd hmem
  obtain ⟨l1, l2, he, hr⟩ := eraseKey_split k m l hl
  rw [hr]
  have hmid : ((k, m) :: (l1 ++ l2)).Perm ((k, m) :: rest) :=
    List.Perm.trans List.perm_middle.symm (he ▸ hp)
  exact hmid.cons_inv

theorem sumSizes_perm {l1 l2 : List (String × MetaEntry)} (h : l1.Perm l2) :
    sumSizes l1 = sumSizes l2 := by
  unfold sumSizes
  exact (h.map (fun p => p.2.size)).sum_eq

/-! ## Eviction lemmas -/

theorem evictLoop_sum_le (maxSize : Nat) :
    ∀ (rem : List (String × MetaEntry)) (total : Nat) (s : Store),
      s.index.Perm rem → ((rem.map Prod.fst).Nodup) → total = sumSizes rem →
      10 * sumSizes (evictLoop maxSize rem total s).index ≤ 9 * maxSize
  | [], total, s => by
    intro hp _ _
    have h0 : sumSizes s.index = 0 := by rw [sumSizes_perm hp]; rfl
    simp [evictLoop, h0]
  | (k, m) :: rest, total, s => by
    intro hp hnd htot
    by_cases hcond : 10 * total > 9 * maxSize
    · rw [evictLoop, if_pos hcond]
      have hndi : (s.index.map Prod.fst).Nodup := ((hp.map Prod.fst).symm).nodup hnd
      apply evictLoop_sum_le maxSize rest (total - m.size) (evictStep k m s)
      · exact eraseKey_perm k m hp hndi
      · exact (by simpa using hnd : (k :: rest.map Prod.fst).Nodup).of_cons
      · rw [htot]
        show sumSizes ((k, m) :: rest) - m.size = sumSizes rest
        unfold sumSizes
        simp [Nat.add_sub_cancel_left]
    · rw [evictLoop, if_neg hcond]
      rw [sumSizes_perm hp, ← htot]
      omega

theorem evictLoop_index_subset (maxSize : Nat) :
    ∀ (rem : List (String × MetaEntry)) (total : Nat) (s : Store) (p : String × MetaEntry),
      p ∈ (evictLoop maxSize rem total s).index → p ∈ s.index
  | [], _, _ => fun _ h => h
  | (k, m) :: rest, total, s => by
    intro p hp2
    by_cases hcond : 10 * total > 9 * maxSize
    · rw [evictLoop, if_pos hcond] at hp2
      exact mem_eraseKey k p _ (evictLoop_index_subset maxSize rest _ _ p hp2)
    · rw [evictLoop, if_neg hcond] at hp2
      exact hp2

theorem evictStep_blobs_lookup (k : String) (m : MetaEntry) (s : Store) (h : String)
    (href : ∃ p ∈ (evictStep k m s).index, p.2.blobHash = h) :
    (evictStep k m s).blobs.lookup h = s.blobs.lookup h ∧
    (evictStep k m s).diskBlobs.lookup h = s.diskBlobs.lookup h := by
  obtain ⟨p, hpmem, hph⟩ := href
  by_cases hused : (eraseKey k s.index).any (fun q => q.2.blobHash == m.blobHash)
  · constructor <;> simp [evictStep, hused]
  · have hne : h ≠ m.blobHash := by
      intro hh
      apply hused
      refine List.any_eq_true.mpr ⟨p, ?_, ?_⟩
      · simpa [evictStep] using hpmem
      · simp [hph, hh]
    constructor <;>
      simp [evictStep, hused, lookup_eraseKey_ne m.blobHash h hne]

theorem evictLoop_blobs_lookup (maxSize : Nat) :
    ∀ (rem : List (String × MetaEntry)) (total : Nat) (s : Store) (h : String),
      (∃ p ∈ (evictLoop maxSize rem total s).index, p.2.blobHash = h) →
      (evictLoop maxSize rem total s).blobs.lookup h = s.blobs.lookup h ∧
      (evictLoop maxSize rem total s).diskBlobs.lookup h = s.diskBlobs.lookup h
  | [], _, _ => fun _ _ => ⟨rfl, rfl⟩
  | (k, m) :: rest, total, s => by
    intro h href
    by_cases hcond : 10 * total > 9 * maxSize
    · rw [evictLoop, if_pos hcond] at href ⊢
      obtain ⟨p, hpmem, hph⟩ := href
      have hstep : ∃ p ∈ (evictStep k m s).index, p.2.blobHash = h :=
        ⟨p, evictLoop_index_subset maxSize rest _ _ p hpmem, hph⟩
      obtain ⟨hb, hd⟩ := evictStep_blobs_lookup k m s h hstep
      obtain ⟨hb2, hd2⟩ := evictLoop_blobs_lookup maxSize rest (total - m.size)
        (evictStep k m s) h ⟨p, hpmem, hph⟩
      exact ⟨hb2.trans hb, hd2.trans hd⟩
    · rw [evictLoop, if_neg hcond]
      exact ⟨rfl, rfl⟩

/-- Claim C5 (amended): whenever eviction is triggered (the entry sizes sum
beyond `max_size`), the surviving sum is at most `0.9 × max_size` (not
strictly below it — see the counterexample), and every blob hash still
referenced by a surviving entry is exactly as present in the hot tier and on
disk as it was before: a blob is deleted or unlinked only when no surviving
entry references it. -/
theorem evictIfNeeded_spec (s : Store)
    (hnd : (s.index.map Prod.fst).Nodup)
    (htrig : s.maxSize < sumSizes s.index) :
    10 * sumSizes (evictIfNeeded s).index ≤ 9 * s.maxSize ∧
    ∀ p ∈ (evictIfNeeded s).index,
      (evictIfNeeded s).blobs.lookup p.2.blobHash = s.blobs.lookup p.2.blobHash ∧
      (evictIfNeeded s).diskBlobs.lookup p.2.blobHash = s.diskBlobs.lookup p.2.blobHash := by
  have hno : ¬ sumSizes s.index ≤ s.maxSize := by omega
  rw [evictIfNeeded]
  simp only [hno, if_false]
  have hperm : s.index.Perm (List.insertionSort storedAtLE s.index) :=
    (List.perm_insertionSort storedAtLE s.index).symm
  constructor
  · exact evictLoop_sum_le s.maxSize _ _ s hperm
      ((hperm.map Prod.fst).nodup hnd) (sumSizes_perm hperm)
  · intro p hp
    exact evictLoop_blobs_lookup s.maxSize _ _ s p.2.blobHash ⟨p, hp, rfl⟩

/-- A store with two entries (sizes 11 and 90, `max_size = 100`) whose
eviction lands exactly on the `0.9 × max_size` boundary. -/
def c5Store : Store :=
  ⟨100, 10,
   [("k1", ⟨"u1", "h1", 0, [], none, none, none, "script", "third-party", 11⟩),
    ("k2", ⟨"u2", "h2", 1, [], none, none, none, "script", "third-party", 90⟩)],
   [], [("h1", [1]), ("h2", [2])], [], false, [("h1", [1]), ("h2", [2])]⟩

/-- Claim C5, counterexample to strictness: eviction triggers (101 > 100),
stops at a surviving sum of exactly `0.9 × max_size` (90), which is not
strictly below `0.9 × max_size`. -/
theorem evictIfNeeded_boundary_counterexample :
    c5Store.maxSize < sumSizes c5Store.index ∧
    ¬ (10 * sumSizes (evictIfNeeded c5Store).index < 9 * c5Store.maxSize) := by
  constructor
  · decide
  · decide

/-- Claim C5, witness: the amended bound applied to `c5Store`. -/
theorem evictIfNeeded_spec_witness :
    10 * sumSizes (evictIfNeeded c5Store).index ≤ 9 * c5Store.maxSize :=
  (evictIfNeeded_spec c5Store (by decide) (by decide)).1

/-! ## peekMetaAllowStale (claim C4) -/

/-- Claim C4: `peekMetaAllowStale(k)` returns the stored entry iff it exists
and `now − stored_at < stale_ttl` with
`stale_ttl = max(30 × body_ttl, 7 days)`; consequently a fresh entry
(`now − stored_at < body_ttl`) is always returned. -/
theorem peekMetaAllowStale_spec (s : Store) (now : Nat) (k : String) (m : MetaEntry) :
    (peekMetaAllowStale s now k = some m ↔
      (s.index.lookup k = some m ∧ now - m.storedAt < staleTTL s.maxAge)) ∧
    (staleTTL s.maxAge = max (30 * s.maxAge) 604800000) ∧
    (s.index.lookup k = some m → isFresh s now m = true →
      peekMetaAllowStale s now k = some m) := by
  refine ⟨⟨?_, ?_⟩, rfl, ?_⟩
  · intro h
    cases hl : s.index.lookup k with
    | none => simp only [peekMetaAllowStale, hl] at h; cases h
    | some m' =>
      simp only [peekMetaAllowStale, hl] at h
      by_cases ht : now - m'.storedAt < staleTTL s.maxAge
      · rw [if_pos ht] at h
        injection h with h
        subst h
        exact ⟨rfl, ht⟩
      · rw [if_neg ht] at h; cases h
  · rintro ⟨hl, ht⟩
    simp only [peekMetaAllowStale, hl, if_pos ht]
  · intro hl hf
    simp only [peekMetaAllowStale, hl]
    have hfr : now - m.storedAt < s.maxAge := by simpa [isFresh] using hf
    have hle : 30 * s.maxAge ≤ staleTTL s.maxAge := by
      unfold staleTTL; exact Nat.le_max_left _ _
    rw [if_pos (by omega)]

/-- Claim C4, witness: a fresh entry is returned by `peekMetaAllowStale`. -/
theorem peekMetaAllowStale_spec_witness :
    peekMetaAllowStale
        ⟨1000, 10, [("k", ⟨"u", "h", 0, [], none, none, none, "script", "third-party", 1⟩)],
         [], [], [], false, []⟩ 5 "k" =
      some ⟨"u", "h", 0, [], none, none, none, "script", "third-party", 1⟩ :=
  (peekMetaAllowStale_spec _ 5 "k" _).2.2 (by decide) (by decide)

/-! ## put / peekMeta / getBlob round trip (claim C3) -/

theorem sumSizes_updOne_le (k : String) (m : MetaEntry) :
    ∀ idx, sumSizes (updOne k m idx) ≤ sumSizes idx + m.size
  | [] => by simp [updOne, sumSizes]
  | (k', m') :: rest => by
    by_cases h : (k' == k) = true
    · simp [updOne, h, sumSizes]
      omega
    · simp only [updOne, h, Bool.false_eq_true, if_false]
      have hrec := sumSizes_updOne_le k m rest
      unfold sumSizes at *
      simp only [List.map_cons, List.sum_cons]
      omega

theorem evictIfNeeded_of_le {s : Store} (h : sumSizes s.index ≤ s.maxSize) :
    evictIfNeeded s = s := by
  unfold evictIfNeeded
  simp [h]

/-- Claim C3 (amended): after `put(k, url, b, …)` returns successfully and
the insertion does not push the total size beyond `max_size` (otherwise the
eviction check inside `put` can immediately evict the fresh entry — see the
counterexample), `peekMeta(k)` returns the newly written entry and `getBlob`
on its hash returns `b` byte-for-byte, given that SHA-256 does not collide on
the bodies involved (hypothesis `hcoll`). -/
theorem put_peek_getBlob (s : Store) (now : Nat) (hashF : List Nat → String)
    (diskOk : Bool) (cacheKey url : String) (body : List Nat) (headers : HMap)
    (rt origin : String) (aliasKey : Option String) (s' : Store)
    (hcoll : ∀ b, s.blobs.lookup (hashF body) = some b → b = body)
    (hsize : sumSizes s.index + body.length ≤ s.maxSize)
    (hok : put s now hashF diskOk cacheKey url body headers rt origin aliasKey = .ok s') :
    ∃ m, peekMeta s' cacheKey = some m ∧ m.blobHash = hashF body ∧ m.url = url ∧
      m.storedAt = now ∧ m.size = body.length ∧ (getBlob s' m.blobHash).1 = some body := by
  simp only [put] at hok
  split at hok
  · cases hok
  · injection hok with hs'
    by_cases hnew : (s.blobs.lookup (hashF body)).isNone = true
    all_goals
      simp only [hnew, Bool.false_eq_true, if_true, if_false] at hs'
    · -- new blob: hot tier gains (hash, body)
      have hb : ∀ t : Store, t.blobs = (hashF body, body) :: s.blobs →
          (getBlob t (hashF body)).1 = some body := by
        intro t ht
        unfold getBlob
        rw [ht]
        simp [List.lookup_cons]
      cases aliasKey with
      | none =>
        rw [← hs']
        rw [evictIfNeeded_of_le (by
          simp only []
          calc sumSizes (updOne cacheKey _ s.index) ≤ sumSizes s.index + body.length :=
                sumSizes_updOne_le _ _ _
            _ ≤ s.maxSize := hsize)]
        exact ⟨_, lookup_updOne_self cacheKey _ s.index, rfl, rfl, rfl, rfl, hb _ rfl⟩
      | some a =>
        rw [← hs']
        rw [evictIfNeeded_of_le (by
          simp only []
          calc sumSizes (updOne cacheKey _ s.index) ≤ sumSizes s.index + body.length :=
                sumSizes_updOne_le _ _ _
            _ ≤ s.maxSize := hsize)]
        exact ⟨_, lookup_updOne_self cacheKey _ s.index, rfl, rfl, rfl, rfl, hb _ rfl⟩
    · -- dedup: the stored blob equals the body by collision freedom
      have hsome : ∃ b, s.blobs.lookup (hashF body) = some b := by
        cases hy : s.blobs.lookup (hashF body) with
        | none => rw [hy] at hnew; simp at hnew
        | some b => exact ⟨b, rfl⟩
      obtain ⟨b0, hb0⟩ := hsome
      have hbody : b0 = body := hcoll b0 hb0
      have hb : ∀ t : Store, t.blobs = s.blobs →
          (getBlob t (hashF body)).1 = some body := by
        intro t ht
        unfold getBlob
        rw [ht, hb0, hbody]
      cases aliasKey with
      | none =>
        rw [← hs']
        rw [evictIfNeeded_of_le (by
          simp only []
          calc sumSizes (updOne cacheKey _ s.index) ≤ sumSizes s.index + body.length :=
                sumSizes_updOne_le _ _ _
            _ ≤ s.maxSize := hsize)]
        exact ⟨_, lookup_updOne_self cacheKey _ s.index, rfl, rfl, rfl, rfl, hb _ rfl⟩
      | some a =>
        rw [← hs']
        rw [evictIfNeeded_of_le (by
          simp only []
          calc sumSizes (updOne cacheKey _ s.index) ≤ sumSizes s.index + body.length :=
                sumSizes_updOne_le _ _ _
            _ ≤ s.maxSize := hsize)]
        exact ⟨_, lookup_updOne_self cacheKey _ s.index, rfl, rfl, rfl, rfl, hb _ rfl⟩

/-- Claim C3, counterexample to the unconditional claim: `put` succeeds on a
101-byte body with `max_size = 100`, but the eviction check that `put` runs
immediately evicts the freshly written entry, so `peekMeta` finds nothing. -/
theorem put_oversized_counterexample :
    (put ⟨100, 10, [], [], [], [], false, []⟩ 5 (fun _ => "HH") true "K" "u"
        (List.replicate 101 0) [] "script" "third-party" none).toOption =
      some ⟨100, 10, [], [], [], [], true, []⟩ ∧
    peekMeta ⟨100, 10, [], [], [], [], true, []⟩ "K" = none := by
  constructor
  · decide
  · decide

/-- Claim C3, witness: a small body on an empty store. -/
theorem put_peek_getBlob_witness :
    ∃ m, peekMeta ⟨100, 10,
        [("K", ⟨"u", "H", 5, [], none, none, none, "script", "third-party", 1⟩)],
        [], [("H", [7])], [], true, [("H", [7])]⟩ "K" = some m ∧
      m.blobHash = (fun _ : List Nat => "H") [7] ∧ m.url = "u" ∧
      m.storedAt = 5 ∧ m.size = [7].length ∧
      (getBlob ⟨100, 10,
        [("K", ⟨"u", "H", 5, [], none, none, none, "script", "third-party", 1⟩)],
        [], [("H", [7])], [], true, [("H", [7])]⟩ m.blobHash).1 = some [7] :=
  put_peek_getBlob ⟨100, 10, [], [], [], [], false, []⟩ 5 (fun _ => "H") true "K" "u"
    [7] [] "script" "third-party" none _
    (fun b hb => by cases hb) (by decide) rfl

/-! ## putDocument frame (claim C10) -/

/-- Claim C10: `putDocument` mutates only the main index, the blob store and
the dirty flag; it never touches the alias index or dedup set and never runs
the eviction check — so a document store can leave the total size above
`max_size` (final conjunct: a concrete 150-byte document in a
`max_size = 100` store). -/
theorem putDocument_frame (s : Store) (now : Nat) (hashF : List Nat → String)
    (diskOk : Bool) (cacheKey url : String) (body : List Nat) (headers : HMap) (s' : Store)
    (hok : putDocument s now hashF diskOk cacheKey url body headers = .ok s') :
    (s'.aliasIndex = s.aliasIndex ∧ s'.dedup = s.dedup ∧ s'.maxSize = s.maxSize ∧
     s'.maxAge = s.maxAge ∧ s'.dirty = true ∧
     (∀ k, k ≠ cacheKey → s'.index.lookup k = s.index.lookup k)) ∧
    (∃ cs', putDocument ⟨100, 10, [], [], [], [], false, []⟩ 0 (fun _ => "H") true
        "d" "u" (List.replicate 150 0) [] = .ok cs' ∧
      cs'.maxSize < sumSizes cs'.index) := by
  constructor
  · simp only [putDocument] at hok
    split at hok
    · cases hok
    · injection hok with hs'
      by_cases hnew : (s.blobs.lookup (hashF body)).isNone = true
      all_goals
        simp only [hnew, Bool.false_eq_true, if_true, if_false] at hs'
      all_goals
        rw [← hs']
        exact ⟨rfl, rfl, rfl, rfl, rfl,
          fun k hk => lookup_updOne_ne cacheKey k _ hk s.index⟩
  · refine ⟨⟨100, 10,
      [("d", ⟨"u", "H", 0, [], none, none, none, "document", "document", 150⟩)],
      [], [("H", List.replicate 150 0)], [], true, [("H", List.replicate 150 0)]⟩,
      ?_, ?_⟩
    · rfl
    · decide

/-- Claim C10, witness: alias index and dedup set survive a concrete
`putDocument` unchanged. -/
theorem putDocument_frame_witness :
    (⟨1000, 10, [("d", ⟨"u", "H", 0, [], none, none, none, "document", "document", 1⟩)],
      [("al", "k0")], [("H", [1])], ["d0"], true, [("H", [1])]⟩ : Store).aliasIndex =
      (⟨1000, 10, [], [("al", "k0")], [], ["d0"], false, []⟩ : Store).aliasIndex ∧
    (⟨1000, 10, [("d", ⟨"u", "H", 0, [], none, none, none, "document", "document", 1⟩)],
      [("al", "k0")], [("H", [1])], ["d0"], true, [("H", [1])]⟩ : Store).dedup =
      (⟨1000, 10, [], [("al", "k0")], [], ["d0"], false, []⟩ : Store).dedup :=
  ⟨(putDocument_frame ⟨1000, 10, [], [("al", "k0")], [], ["d0"], false, []⟩ 0
      (fun _ => "H") true "d" "u" [1] [] _ rfl).1.1,
   (putDocument_frame ⟨1000, 10, [], [("al", "k0")], [], ["d0"], false, []⟩ 0
      (fun _ => "H") true "d" "u" [1] [] _ rfl).1.2.1⟩

/-! ## Stored header whitelists (claim C7) -/

theorem lookup_pickKeep (headers : HMap) :
    ∀ (keep : List String) (k : String),
      (keep.filterMap
          (fun k0 => (truthyOpt (headers.lookup k0)).map (fun v => (k0, v)))).lookup k =
        (if k ∈ keep then truthyOpt (headers.lookup k) else none)
  | [] => by intro k; simp
  | k0 :: rest => by
    intro k
    cases ht : truthyOpt (headers.lookup k0) with
    | none =>
      simp only [List.filterMap_cons, ht, Option.map_none']
      rw [lookup_pickKeep headers rest k]
      by_cases hk : k = k0
      · subst hk
        by_cases hm : k ∈ rest
        · simp [hm, ht]
        · simp [hm, ht]
      · simp [List.mem_cons, hk]
    | some v =>
      simp only [List.filterMap_cons, ht, Option.map_some']
      by_cases hk : k = k0
      · subst hk
        simp [List.lookup_cons, List.mem_cons, ht]
      · simp only [List.lookup_cons, beq_eq_false_iff_ne.mpr hk]
        rw [lookup_pickKeep headers rest k]
        simp [List.mem_cons, hk]

/-- Claim C7 (amended): the entry stored by `putDocument` keeps exactly the
truthy-valued headers whose names are in the document whitelist, which is the
asset whitelist WITHOUT `timing-allow-origin`, plus `content-security-policy`,
`x-frame-options`, `set-cookie` and `link`. -/
theorem putDocument_header_whitelist (s : Store) (now : Nat) (hashF : List Nat → String)
    (diskOk : Bool) (cacheKey url : String) (body : List Nat) (headers : HMap) (s' : Store)
    (hok : putDocument s now hashF diskOk cacheKey url body headers = .ok s') :
    ∃ m, peekMeta s' cacheKey = some m ∧
      ∀ k, m.headers.lookup k =
        (if k ∈ ["content-type", "cache-control", "etag", "last-modified", "vary",
            "access-control-allow-origin", "access-control-allow-credentials",
            "access-control-allow-methods", "access-control-allow-headers",
            "access-control-expose-headers", "x-content-type-options",
            "content-security-policy", "x-frame-options", "set-cookie", "link"]
          then truthyOpt (headers.lookup k) else none) := by
  simp only [putDocument] at hok
  split at hok
  · cases hok
  · injection hok with hs'
    by_cases hnew : (s.blobs.lookup (hashF body)).isNone = true
    all_goals
      simp only [hnew, Bool.false_eq_true, if_true, if_false] at hs'
    all_goals
      rw [← hs']
      refine ⟨_, lookup_updOne_self cacheKey _ _, fun k => ?_⟩
      exact lookup_pickKeep headers _ k

/-- Claim C7, counterexample to the claim as stated: `timing-allow-origin`
belongs to the asset whitelist (`_pickCacheHeaders` keeps it) but
`_pickDocHeaders` drops it, so a `putDocument` of a response carrying it
stores an entry without it; also a header present with an empty value is not
stored (JavaScript truthiness). -/
theorem putDocument_timing_allow_origin_counterexample :
    (putDocument ⟨1000, 10, [], [], [], [], false, []⟩ 0 (fun _ => "H") true "D" "u" [1]
        [("timing-allow-origin", "*"), ("etag", "x")]).toOption =
      some ⟨1000, 10,
        [("D", ⟨"u", "H", 0, [("etag", "x")], some "x", none, none,
          "document", "document", 1⟩)],
        [], [("H", [1])], [], true, [("H", [1])]⟩ ∧
    (peekMeta ⟨1000, 10,
        [("D", ⟨"u", "H", 0, [("etag", "x")], some "x", none, none,
          "document", "document", 1⟩)],
        [], [("H", [1])], [], true, [("H", [1])]⟩ "D").map MetaEntry.headers =
      some [("etag", "x")] ∧
    pickCacheHeaders [("timing-allow-origin", "*"), ("etag", "x")] =
      [("etag", "x"), ("timing-allow-origin", "*")] ∧
    pickDocHeaders [("content-type", "")] = [] := by
  refine ⟨by decide, by decide, by decide, by decide⟩

/-- Claim C7, witness: the whitelist characterization applied to a concrete
`putDocument`. -/
theorem putDocument_header_whitelist_witness :
    ∃ m, peekMeta ⟨1000, 10,
        [("D", ⟨"u", "H", 0, [("etag", "x")], some "x", none, none,
          "document", "document", 1⟩)],
        [], [("H", [1])], [], true, [("H", [1])]⟩ "D" = some m ∧
      ∀ k, m.headers.lookup k =
        (if k ∈ ["content-type", "cache-control", "etag", "last-modified", "vary",
            "access-control-allow-origin", "access-control-allow-credentials",
            "access-control-allow-methods", "access-control-allow-headers",
            "access-control-expose-headers", "x-content-type-options",
            "content-security-policy", "x-frame-options", "set-cookie", "link"]
          then truthyOpt (List.lookup k [("timing-allow-origin", "*"), ("etag", "x")])
          else none) :=
  putDocument_header_whitelist ⟨1000, 10, [], [], [], [], false, []⟩ 0 (fun _ => "H")
    true "D" "u" [1] [("timing-allow-origin", "*"), ("etag", "x")] _ rfl

/-! ## Blob write failure inside `put` (claim C8) -/

/-- A concrete environment for exercising the handler: everything classifies
as cacheable class C, keys are identity hashes. -/
def idEnv : Env :=
  { classify := fun _ _ => ⟨"C", "third-party"⟩,
    shouldCacheByContentType := fun _ => true,
    canon := fun u _ => u,
    aliasF := fun _ => none,
    normDoc := fun u => u,
    sha256hex := fun x => x,
    hashBody := fun _ => "H",
    now := 5 }

/-- Claim C8: the v4.1.1 `put` performs the blob `writeFileSync` with no
`try/catch`, so when the disk write fails the call rejects before any index
mutation: the index is unchanged (that part of the claim holds), but the
error is not logged inside `put`, and on a cold miss — where there is no
cached entry to rescue — the handler's catch re-throws, so the request ends
in a propagated error instead of being fulfilled with the freshly fetched
body, contradicting the claimed behavior (which the parallel
`src/src/cache/StorageEngine.js` variant implements). -/
theorem put_write_failure_propagates :
    put ⟨1000, 10, [], [], [], [], false, []⟩ 5 (fun _ => "H") false "K" "u" [1, 2] []
      "script" "third-party" none = .error () ∧
    (handle idEnv ⟨1000, 10, [], [], [], [], false, []⟩ ⟨"GET", "u", "script", []⟩
        [.ok ⟨200, [], [1, 2]⟩] false).outcome = .error ∧
    (handle idEnv ⟨1000, 10, [], [], [], [], false, []⟩ ⟨"GET", "u", "script", []⟩
        [.ok ⟨200, [], [1, 2]⟩] false).store.index = [] := by
  refine ⟨rfl, by decide, by decide⟩

/-! ## Replayed headers never carry encoding headers (claim C2) -/

/-- The property claim C2 asserts of a header map. -/
def EncodingFree (h : HMap) : Prop :=
  h.lookup "content-encoding" = none ∧ h.lookup "content-length" = none ∧
  h.lookup "transfer-encoding" = none

theorem lookup_stripEncoding_none (k : String)
    (hk : k = "content-encoding" ∨ k = "content-length" ∨ k = "transfer-encoding") :
    ∀ l : HMap, (stripEncoding l).lookup k = none
  | [] => rfl
  | p :: rest => by
    obtain ⟨pk, pv⟩ := p
    show (List.filter _ ((pk, pv) :: rest)).lookup k = none
    simp only [List.filter_cons]
    by_cases hc : pk = k
    · have hpred : (!(pk == "content-encoding" || pk == "content-length" ||
          pk == "transfer-encoding")) = false := by
        rcases hk with h | h | h <;> rw [hc, h] <;> simp
      rw [if_neg (by simp only [hpred]; decide)]
      exact lookup_stripEncoding_none k hk rest
    · by_cases hpred : (!(pk == "content-encoding" || pk == "content-length" ||
          pk == "transfer-encoding")) = true
      · rw [if_pos hpred]
        have hkp : (k == pk) = false := beq_eq_false_iff_ne.mpr (fun h => hc h.symm)
        simp only [List.lookup_cons, hkp]
        exact lookup_stripEncoding_none k hk rest
      · rw [if_neg hpred]
        exact lookup_stripEncoding_none k hk rest

theorem encodingFree_stripEncoding (l : HMap) : EncodingFree (stripEncoding l) :=
  ⟨lookup_stripEncoding_none _ (Or.inl rfl) l,
   lookup_stripEncoding_none _ (Or.inr (Or.inl rfl)) l,
   lookup_stripEncoding_none _ (Or.inr (Or.inr rfl)) l⟩

theorem encodingFree_replayHeaders (l : HMap) : EncodingFree (replayHeaders l) := by
  unfold replayHeaders
  refine ⟨?_, ?_, ?_⟩ <;>
    rw [lookup_updOne_ne _ _ _ (by decide), lookup_updOne_ne _ _ _ (by decide)]
  · exact lookup_stripEncoding_none _ (Or.inl rfl) l
  · exact lookup_stripEncoding_none _ (Or.inr (Or.inl rfl)) l
  · exact lookup_stripEncoding_none _ (Or.inr (Or.inr rfl)) l

theorem encodingFree_replayDocHeaders (l : HMap) : EncodingFree (replayDocHeaders l) := by
  unfold replayDocHeaders
  refine ⟨?_, ?_, ?_⟩ <;>
    rw [lookup_updOne_ne _ _ _ (by decide), lookup_updOne_ne _ _ _ (by decide)]
  · exact lookup_stripEncoding_none _ (Or.inl rfl) l
  · exact lookup_stripEncoding_none _ (Or.inr (Or.inl rfl)) l
  · exact lookup_stripEncoding_none _ (Or.inr (Or.inr rfl)) l

theorem missBranch_encodingFree (env : Env) (s : Store) (c : AssetCtx)
    (mr : Option MetaEntry) (fetches : List FetchResult) (diskOk : Bool)
    {st : Nat} {h : HMap} {b : List Nat} {tg : PathTag}
    (hout : (missBranch env s c mr fetches diskOk).outcome = .fulfill st h b tg) :
    EncodingFree h := by
  unfold missBranch at hout
  repeat' first
    | split at hout
    | simp only [] at hout
  all_goals
    first
    | (injection hout with h1 h2 h3 h4; subst h2; exact encodingFree_replayHeaders _)
    | (injection hout with h1 h2 h3 h4; subst h2; exact encodingFree_stripEncoding _)
    | exact Outcome.noConfusion hout

theorem changedContent_encodingFree (env : Env) (s : Store) (c : AssetCtx)
    (m : MetaEntry) (resp : Resp) (rest : List FetchResult) (diskOk : Bool)
    {st : Nat} {h : HMap} {b : List Nat} {tg : PathTag}
    (hout : (changedContent env s c m resp rest diskOk).outcome = .fulfill st h b tg) :
    EncodingFree h := by
  unfold changedContent at hout
  repeat' first
    | split at hout
    | simp only [] at hout
  all_goals
    first
    | (injection hout with h1 h2 h3 h4; subst h2; exact encodingFree_replayHeaders _)
    | (injection hout with h1 h2 h3 h4; subst h2; exact encodingFree_stripEncoding _)
    | exact missBranch_encodingFree _ _ _ _ _ _ hout
    | exact Outcome.noConfusion hout

theorem revalBranch_encodingFree (env : Env) (s : Store) (c : AssetCtx)
    (m : MetaEntry) (usedAlias : Bool) (fetches : List FetchResult) (diskOk : Bool)
    {st : Nat} {h : HMap} {b : List Nat} {tg : PathTag}
    (hout : (revalBranch env s c m usedAlias fetches diskOk).outcome = .fulfill st h b tg) :
    EncodingFree h := by
  unfold revalBranch at hout
  repeat' first
    | split at hout
    | simp only [] at hout
  all_goals
    first
    | (injection hout with h1 h2 h3 h4; subst h2; exact encodingFree_replayHeaders _)
    | (injection hout with h1 h2 h3 h4; subst h2; exact encodingFree_stripEncoding _)
    | exact missBranch_encodingFree _ _ _ _ _ _ hout
    | exact changedContent_encodingFree _ _ _ _ _ _ _ hout
    | exact Outcome.noConfusion hout

theorem assetWithMeta_encodingFree (env : Env) (s : Store) (c : AssetCtx)
    (m : MetaEntry) (usedAlias : Bool) (fetches : List FetchResult) (diskOk : Bool)
    {st : Nat} {h : HMap} {b : List Nat} {tg : PathTag}
    (hout : (assetWithMeta env s c m usedAlias fetches diskOk).outcome = .fulfill st h b tg) :
    EncodingFree h := by
  unfold assetWithMeta at hout
  repeat' first
    | split at hout
    | simp only [] at hout
  all_goals
    first
    | (injection hout with h1 h2 h3 h4; subst h2; exact encodingFree_replayHeaders _)
    | exact missBranch_encodingFree _ _ _ _ _ _ hout
    | exact revalBranch_encodingFree _ _ _ _ _ _ _ hout
    | exact Outcome.noConfusion hout

theorem docFresh_encodingFree (env : Env) (s : Store) (r : Request) (docKey : String)
    (fetches : List FetchResult) (diskOk : Bool)
    {st : Nat} {h : HMap} {b : List Nat} {tg : PathTag}
    (hout : (docFresh env s r docKey fetches diskOk).outcome = .fulfill st h b tg) :
    EncodingFree h := by
  unfold docFresh at hout
  repeat' first
    | split at hout
    | simp only [] at hout
  all_goals
    first
    | (injection hout with h1 h2 h3 h4; subst h2; exact encodingFree_stripEncoding _)
    | exact Outcome.noConfusion hout

theorem docReval_encodingFree (env : Env) (s : Store) (r : Request) (docKey : String)
    (m : MetaEntry) (fetches : List FetchResult) (diskOk : Bool)
    {st : Nat} {h : HMap} {b : List Nat} {tg : PathTag}
    (hout : (docReval env s r docKey m fetches diskOk).outcome = .fulfill st h b tg) :
    EncodingFree h := by
  unfold docReval at hout
  repeat' first
    | split at hout
    | simp only [] at hout
  all_goals
    first
    | (injection hout with h1 h2 h3 h4; subst h2; exact encodingFree_replayDocHeaders _)
    | (injection hout with h1 h2 h3 h4; subst h2; exact encodingFree_stripEncoding _)
    | exact Outcome.noConfusion hout

theorem handleDocument_encodingFree (env : Env) (s : Store) (r : Request)
    (fetches : List FetchResult) (diskOk : Bool)
    {st : Nat} {h : HMap} {b : List Nat} {tg : PathTag}
    (hout : (handleDocument env s r fetches diskOk).outcome = .fulfill st h b tg) :
    EncodingFree h := by
  unfold handleDocument at hout
  repeat' first
    | split at hout
    | simp only [] at hout
  all_goals
    first
    | exact docFresh_encodingFree _ _ _ _ _ _ hout
    | exact docReval_encodingFree _ _ _ _ _ _ _ hout
    | exact Outcome.noConfusion hout

theorem handle_encodingFree (env : Env) (s : Store) (r : Request)
    (fetches : List FetchResult) (diskOk : Bool)
    {st : Nat} {h : HMap} {b : List Nat} {tg : PathTag}
    (hout : (handle env s r fetches diskOk).outcome = .fulfill st h b tg) :
    EncodingFree h := by
  unfold handle at hout
  repeat' first
    | split at hout
    | simp only [] at hout
  all_goals
    first
    | exact handleDocument_encodingFree _ _ _ _ _ hout
    | exact assetWithMeta_encodingFree _ _ _ _ _ _ _ hout
    | exact missBranch_encodingFree _ _ _ _ _ _ hout
    | exact Outcome.noConfusion hout

/-- Claim C2: whenever the handler fulfills from one of the cache-replay
paths (fresh hit, 304-revalidated hit, stale-hit, stale-rescue, document hit
— and also the stale-document path), the header map passed to
`route.fulfill` contains none of `content-encoding`, `content-length`,
`transfer-encoding`. -/
theorem handle_replay_headers_encodingFree (env : Env) (s : Store) (r : Request)
    (fetches : List FetchResult) (diskOk : Bool)
    (st : Nat) (h : HMap) (b : List Nat) (tg : PathTag)
    (hout : (handle env s r fetches diskOk).outcome = .fulfill st h b tg)
    (_htag : tg = .freshHit ∨ tg = .hit304 ∨ tg = .staleHit ∨ tg = .staleRescue ∨
      tg = .docHit ∨ tg = .docStale) :
    h.lookup "content-encoding" = none ∧ h.lookup "content-length" = none ∧
    h.lookup "transfer-encoding" = none :=
  handle_encodingFree env s r fetches diskOk hout

/-- Claim C2, witness: a concrete fresh hit whose stored headers do carry
`content-encoding`; the replayed map is free of all three headers. -/
theorem handle_replay_headers_encodingFree_witness :
    (replayHeaders [("content-type", "text/css"), ("content-encoding", "gzip")]).lookup
        "content-encoding" = none ∧
    (replayHeaders [("content-type", "text/css"), ("content-encoding", "gzip")]).lookup
        "content-length" = none ∧
    (replayHeaders [("content-type", "text/css"), ("content-encoding", "gzip")]).lookup
        "transfer-encoding" = none :=
  handle_replay_headers_encodingFree idEnv
    ⟨1000, 10, [("u", ⟨"u", "H", 0,
        [("content-type", "text/css"), ("content-encoding", "gzip")],
        some "v1", none, none, "script", "third-party", 1⟩)],
      [], [("H", [7])], [], false, [("H", [7])]⟩
    ⟨"GET", "u", "script", []⟩ [] true
    200 (replayHeaders [("content-type", "text/css"), ("content-encoding", "gzip")])
    [7] .freshHit (by decide) (Or.inl rfl)

/-! ## The lookup key never carries a vary suffix (claim C6) -/

theorem missBranch_no_primary_lookup (env : Env) (s : Store) (c : AssetCtx)
    (mr : Option MetaEntry) (fetches : List FetchResult) (diskOk : Bool) :
    ∀ k, Event.lookup k ∉ (missBranch env s c mr fetches diskOk).events := by
  unfold missBranch
  repeat' first
    | split
    | simp only []
  all_goals intro k hmem
  all_goals simp at hmem

theorem changedContent_no_primary_lookup (env : Env) (s : Store) (c : AssetCtx)
    (m : MetaEntry) (resp : Resp) (rest : List FetchResult) (diskOk : Bool) :
    ∀ k, Event.lookup k ∉ (changedContent env s c m resp rest diskOk).events := by
  unfold changedContent
  repeat' first
    | split
    | simp only []
  all_goals intro k hmem
  all_goals simp at hmem
  all_goals exact missBranch_no_primary_lookup _ _ _ _ _ _ k hmem

theorem revalBranch_no_primary_lookup (env : Env) (s : Store) (c : AssetCtx)
    (m : MetaEntry) (usedAlias : Bool) (fetches : List FetchResult) (diskOk : Bool) :
    ∀ k, Event.lookup k ∉ (revalBranch env s c m usedAlias fetches diskOk).events := by
  unfold revalBranch
  repeat' first
    | split
    | simp only []
  all_goals intro k hmem
  all_goals simp at hmem
  all_goals
    first
    | exact missBranch_no_primary_lookup _ _ _ _ _ _ k hmem
    | exact changedContent_no_primary_lookup _ _ _ _ _ _ _ k hmem

theorem assetWithMeta_no_primary_lookup (env : Env) (s : Store) (c : AssetCtx)
    (m : MetaEntry) (usedAlias : Bool) (fetches : List FetchResult) (diskOk : Bool) :
    ∀ k, Event.lookup k ∉ (assetWithMeta env s c m usedAlias fetches diskOk).events := by
  unfold assetWithMeta
  repeat' first
    | split
    | simp only []
  all_goals intro k hmem
  all_goals
    first
    | simp at hmem
    | exact missBranch_no_primary_lookup _ _ _ _ _ _ k hmem
    | exact revalBranch_no_primary_lookup _ _ _ _ _ _ _ k hmem

theorem docFresh_no_primary_lookup (env : Env) (s : Store) (r : Request) (docKey : String)
    (fetches : List FetchResult) (diskOk : Bool) :
    ∀ k, Event.lookup k ∉ (docFresh env s r docKey fetches diskOk).events := by
  unfold docFresh
  repeat' first
    | split
    | simp only []
  all_goals intro k hmem
  all_goals simp at hmem

theorem docReval_no_primary_lookup (env : Env) (s : Store) (r : Request) (docKey : String)
    (m : MetaEntry) (fetches : List FetchResult) (diskOk : Bool) :
    ∀ k, Event.lookup k ∉ (docReval env s r docKey m fetches diskOk).events := by
  unfold docReval
  repeat' first
    | split
    | simp only []
  all_goals intro k hmem
  all_goals simp at hmem

theorem handleDocument_no_primary_lookup (env : Env) (s : Store) (r : Request)
    (fetches : List FetchResult) (diskOk : Bool) :
    ∀ k, Event.lookup k ∉ (handleDocument env s r fetches diskOk).events := by
  unfold handleDocument
  repeat' first
    | split
    | simp only []
  all_goals intro k hmem
  all_goals simp at hmem
  all_goals
    first
    | exact docFresh_no_primary_lookup _ _ _ _ _ _ k hmem
    | exact docReval_no_primary_lookup _ _ _ _ _ _ _ k hmem

theorem handle_lookup_key (env : Env) (s : Store) (r : Request)
    (fetches : List FetchResult) (diskOk : Bool) (k : String)
    (hmem : Event.lookup k ∈ (handle env s r fetches diskOk).events) :
    k = env.sha256hex (env.canon r.url (env.classify r.url r.resourceType).origin) := by
  unfold handle at hmem
  repeat' first
    | split at hmem
    | simp only [] at hmem
  all_goals
    first
    | exact absurd hmem (handleDocument_no_primary_lookup _ _ _ _ _ k)
    | (simp at hmem; done)
    | (simp at hmem
       rcases hmem with hk | hmem
       · exact hk
       · first
         | exact absurd hmem (assetWithMeta_no_primary_lookup _ _ _ _ _ _ _ k)
         | exact absurd hmem (missBranch_no_primary_lookup _ _ _ _ _ _ k))

/-- Claim C6 (amended): the normalizer's `varyKey` does compute
`canonical ++ "|accept=" ++ <first 8 hex of MD5(trimmed Accept)>` whenever
the stored Vary value contains `accept` and the request's trimmed Accept is
non-empty — but the handler never invokes it: the key of every primary cache
lookup is the hash of the unsuffixed canonical string, independent of the
request's Accept header and of any Vary stored in metadata. -/
theorem varyKey_unused_by_lookup :
    (∀ (env : Env) (s : Store) (r : Request) (fetches : List FetchResult)
      (diskOk : Bool) (k : String),
      Event.lookup k ∈ (handle env s r fetches diskOk).events →
      k = env.sha256hex (env.canon r.url (env.classify r.url r.resourceType).origin)) ∧
    (∀ (md5hex : String → String) (canonical : String) (hdrs : HMap) (rv : String),
      rv ≠ "" → strHasSub (strLower rv) "accept" = true →
      strTrim ((hdrs.lookup "accept").getD "") ≠ "" →
      varyKey md5hex canonical hdrs (some rv) =
        canonical ++ "|accept=" ++
          (md5hex (strTrim ((hdrs.lookup "accept").getD ""))).take 8) := by
  constructor
  · intro env s r fetches diskOk k hmem
    exact handle_lookup_key env s r fetches diskOk k hmem
  · intro md5hex canonical hdrs rv hrv hsub htrim
    simp only [varyKey]
    rw [if_neg (by simp [hrv]), if_pos hsub, if_neg (by simp [htrim])]

/-- A handler environment whose canonical function is constant, to exhibit
the lookup key concretely. -/
def c6Env : Env :=
  { classify := fun _ _ => ⟨"C", "third-party"⟩,
    shouldCacheByContentType := fun _ => true,
    canon := fun _ _ => "canon",
    aliasF := fun _ => none,
    normDoc := fun u => u,
    sha256hex := fun x => x,
    hashBody := fun _ => "H",
    now := 5 }

/-- A store whose entry at the canonical key declared `Vary: Accept`. -/
def c6Store : Store :=
  ⟨1000, 10, [("canon", ⟨"u", "H", 0, [("vary", "Accept")], some "v1", none,
    some "Accept", "script", "third-party", 1⟩)], [], [("H", [7])], [], false, []⟩

/-- Claim C6, counterexample to the claim as stated: the stored entry
declared `Vary: Accept` and the request carries an Accept header, yet the
lookup uses the plain canonical key, not the `|accept=`-suffixed key that
`varyKey` would produce (which is never computed on any path). -/
theorem varyKey_never_applied_counterexample :
    Event.lookup "canon" ∈ (handle c6Env c6Store
      ⟨"GET", "u", "script", [("accept", "text/html")]⟩ [.ok ⟨304, [], []⟩] true).events ∧
    varyKey (fun _ => "0123456789abcdef") "canon" [("accept", "text/html")]
      (some "Accept") = "canon|accept=01234567" ∧
    Event.lookup "canon|accept=01234567" ∉ (handle c6Env c6Store
      ⟨"GET", "u", "script", [("accept", "text/html")]⟩ [.ok ⟨304, [], []⟩] true).events := by
  refine ⟨by decide, by decide, by decide⟩

/-- Claim C6, witness: both halves of the amended statement at concrete
inputs. -/
theorem varyKey_unused_by_lookup_witness :
    ("canon" : String) =
      c6Env.sha256hex (c6Env.canon "u" (c6Env.classify "u" "script").origin) ∧
    varyKey (fun _ => "0123456789abcdef") "canon" [("accept", "text/html")]
        (some "Accept") =
      "canon" ++ "|accept=" ++
        ((fun _ : String => "0123456789abcdef")
          (strTrim ((List.lookup "accept" [("accept", "text/html")]).getD ""))).take 8 :=
  ⟨varyKey_unused_by_lookup.1 c6Env c6Store
      ⟨"GET", "u", "script", [("accept", "text/html")]⟩ [.ok ⟨304, [], []⟩] true
      "canon" (by decide),
   varyKey_unused_by_lookup.2 (fun _ => "0123456789abcdef") "canon"
      [("accept", "text/html")] "Accept" (by decide) (by decide) (by decide)⟩

/-! ## 304 revalidation with an unloadable blob (claim C9) -/

/-- Claim C9: for an asset request (here a non-fetch/xhr resource type) whose
stored entry is within stale TTL, not fresh, and has validators, when the
conditional fetch answers 304 but the blob can be loaded neither from the hot
tier nor from disk, the handler falls into the changed-content branch: it
calls `put` with the 304 response's body, records a miss, fulfills with the
304 status — and performs no second fetch (exactly one `fetchCall` event). -/
theorem reval304_missing_blob_spec (env : Env) (s : Store) (r : Request)
    (resp : Resp) (rest : List FetchResult) (m : MetaEntry)
    (hmethod : r.method = "GET")
    (hdoc : r.resourceType ≠ "document")
    (hct : isCacheableType r.resourceType = true)
    (hfx : r.resourceType ≠ "fetch") (hxhr : r.resourceType ≠ "xhr")
    (hcls : (env.classify r.url r.resourceType).cls = "C")
    (hlk : s.index.lookup
      (env.sha256hex (env.canon r.url (env.classify r.url r.resourceType).origin)) = some m)
    (hstale : env.now - m.storedAt < staleTTL s.maxAge)
    (hnotfresh : ¬ (env.now - m.storedAt < s.maxAge))
    (hval : hasValidators m = true)
    (h304 : resp.status = 304)
    (hnbhot : s.blobs.lookup m.blobHash = none)
    (hnbdisk : s.diskBlobs.lookup m.blobHash = none) :
    (handle env s r (.ok resp :: rest) true).outcome =
      .fulfill resp.status (stripEncoding resp.headers) resp.body .missUpdate ∧
    (handle env s r (.ok resp :: rest) true).events =
      [.lookup (env.sha256hex (env.canon r.url (env.classify r.url r.resourceType).origin)),
       .fetchCall,
       .putCall (env.sha256hex (env.canon r.url (env.classify r.url r.resourceType).origin))
         resp.body,
       .statMiss] := by
  have hdoc' : (r.resourceType == "document") = false := beq_eq_false_iff_ne.mpr hdoc
  have hfx' : (r.resourceType == "fetch") = false := beq_eq_false_iff_ne.mpr hfx
  have hxhr' : (r.resourceType == "xhr") = false := beq_eq_false_iff_ne.mpr hxhr
  refine ⟨?_, ?_⟩ <;>
    simp only [handle, assetWithMeta, revalBranch, changedContent, nextFetch, put,
      peekMetaAllowStale, getBlob, isFresh,
      hmethod, hdoc', hct, hcls, hlk, hval, h304, hnbhot, hnbdisk, hfx', hxhr',
      hstale, hnotfresh, if_true, if_false,
      bne_self_eq_false, beq_self_eq_true, Bool.not_true, Bool.not_false,
      Bool.false_eq_true, Bool.and_false, Bool.false_and, Bool.false_or,
      Bool.or_self, decide_False, decide_True]

/-- Claim C9, witness: a concrete stale script entry whose blob is gone; the
304 response's 1-byte body is stored and replayed with status 304. -/
theorem reval304_missing_blob_spec_witness :
    (handle idEnv ⟨1000, 3, [("u", ⟨"u", "H", 0, [], some "v1", none, none, "script",
        "third-party", 1⟩)], [], [], [], false, []⟩
      ⟨"GET", "u", "script", []⟩ [.ok ⟨304, [("content-type", "text/css")], [9]⟩]
      true).outcome =
      .fulfill 304 (stripEncoding [("content-type", "text/css")]) [9] .missUpdate :=
  (reval304_missing_blob_spec idEnv
    ⟨1000, 3, [("u", ⟨"u", "H", 0, [], some "v1", none, none, "script",
      "third-party", 1⟩)], [], [], [], false, []⟩
    ⟨"GET", "u", "script", []⟩ ⟨304, [("content-type", "text/css")], [9]⟩ []
    ⟨"u", "H", 0, [], some "v1", none, none, "script", "third-party", 1⟩
    rfl (by decide) (by decide) (by decide) (by decide) rfl (by decide) (by decide)
    (by decide) (by decide) rfl (by decide) (by decide)).1
